import Mathlib

/-!
# factorio-metrics: log-line classifier, log tailer and metric collector

A shallow embedding of `logtail.go`, `collector.go`, `attrs.go` and the
`logEvent` helper of `main.go`, followed by theorems on the line classifier,
the tailer loop and the collection cycle.

Conventions of the embedding

* A Go `string` is modelled as a Lean `String`, that is, as valid UTF-8 text; its
  characters are the runes the Go library functions iterate over.
* `int64` values are `Int`; they are only carried, never computed with.
* `float64` values are carried opaquely in a type parameter `F`; the only place
  where one is produced is the number conversion of the JSON decoder, which is
  the field `parseFloat` of `FloatConv`.
* Calls into the outside world (the OTel instruments and logger, the standard
  logger, RCON, the Kubernetes API, the context) are modelled by the trace of
  effects a function performs and by an explicit environment that supplies what
  the outside world answers.
* Library functions are modelled from their documentation: `regexp` returns the
  leftmost match a backtracking search finds first; `json.Unmarshal` checks the
  syntax of the whole text, then stores the value, `null` having no effect on a
  struct or a number and object keys being matched with field names exactly or
  else under case folding; `strings.TrimSpace` trims `unicode.IsSpace`; an HTTP
  request made with a context that is already done fails without being sent.
-/

set_option maxRecDepth 4000

namespace FactorioMetrics

/-! ## Regular expressions (the fragment of RE2 syntax used by `logtail.go`) -/

/-- Character classes used by the six patterns. -/
inductive CharClass where
  /-- The class `.`: any character except a newline (no `s` flag is set). -/
  | dot
  /-- The class `\s`, which in RE2 syntax is `[\t\n\f\r ]`. -/
  | space
  deriving DecidableEq, Repr

/-- Membership test of `\s`: tab, newline, form feed, carriage return, space. -/
def isReSpace (c : Char) : Bool :=
  c == '\t' || c == '\n' || c == Char.ofNat 12 || c == '\r' || c == ' '

/-- Membership test of a character class. -/
def CharClass.test : CharClass → Char → Bool
  | .dot, c => c != '\n'
  | .space, c => isReSpace c

/-- One element of a pattern: the patterns of `logtail.go` are sequences of
literal characters, `+` / `+?` repetitions of a character class, and capture
group brackets. -/
inductive Item where
  /-- A literal character. -/
  | lit (c : Char)
  /-- One or more of a class: `x+` when `greedy`, `x+?` otherwise. -/
  | plus (greedy : Bool) (cls : CharClass)
  /-- Opening bracket of capture group `i`. -/
  | gopen (i : Nat)
  /-- Closing bracket of capture group `i`. -/
  | gclose (i : Nat)
  deriving DecidableEq, Repr

/-- A compiled pattern: its items and `numSubexp`, the number of capture groups. -/
structure Regexp where
  items : List Item
  numSubexp : Nat
  deriving Repr

/-- The capture registers: entry `2*i` is the start and `2*i+1` the end offset of
group `i` (group `0` is the whole match); `none` plays the role of `-1`. -/
abbrev Caps := List (Option Nat)

/-- Literal text as pattern items. -/
def litStr (s : String) : List Item := s.data.map Item.lit

/-- Zero or more further characters of a class, followed by the continuation
`k`.  The order of the alternatives is that of a backtracking search: a greedy
repetition first tries to take one more character, a lazy one first tries to
stop. -/
def starLoop (greedy : Bool) (cls : CharClass) (k : List Char → Nat → Option Caps) :
    List Char → Nat → Option Caps
  | [], pos => k [] pos
  | c :: cs, pos =>
    if cls.test c then
      if greedy then
        match starLoop greedy cls k cs (pos + 1) with
        | some r => some r
        | none => k (c :: cs) pos
      else
        match k (c :: cs) pos with
        | some r => some r
        | none => starLoop greedy cls k cs (pos + 1)
    else k (c :: cs) pos

/-- Backtracking match of a sequence of items against the input `inp`, which
starts at offset `pos` of the line.  The result is the capture registers of
the first match a backtracking search finds, which is the match Go's `regexp`
package is documented to return. -/
def matchItems : List Item → Caps → List Char → Nat → Option Caps
  | [], cap, _, _ => some cap
  | Item.lit a :: rest, cap, inp, pos =>
    match inp with
    | [] => none
    | c :: cs => if c = a then matchItems rest cap cs (pos + 1) else none
  | Item.plus g cls :: rest, cap, inp, pos =>
    match inp with
    | [] => none
    | c :: cs =>
      if cls.test c then starLoop g cls (fun i p => matchItems rest cap i p) cs (pos + 1)
      else none
  | Item.gopen i :: rest, cap, inp, pos => matchItems rest (cap.set (2 * i) (some pos)) inp pos
  | Item.gclose i :: rest, cap, inp, pos =>
    matchItems rest (cap.set (2 * i + 1) (some pos)) inp pos

/-- The items of a pattern wrapped in the implicit group `0`. -/
def Regexp.prog (re : Regexp) : List Item :=
  Item.gopen 0 :: (re.items ++ [Item.gclose 0])

/-- Leftmost match: the start offsets are tried from left to right. -/
def findFrom (re : Regexp) : List Char → Nat → Option Caps
  | [], pos => matchItems re.prog (List.replicate (2 * (re.numSubexp + 1)) none) [] pos
  | c :: cs, pos =>
    match matchItems re.prog (List.replicate (2 * (re.numSubexp + 1)) none) (c :: cs) pos with
    | some r => some r
    | none => findFrom re cs (pos + 1)

/-- The text of group `i`: `s[a[2*i]:a[2*i+1]]`, or the empty string when the
group did not take part in the match. -/
def submatch (s : List Char) (cap : Caps) (i : Nat) : String :=
  match cap.getD (2 * i) none, cap.getD (2 * i + 1) none with
  | some b, some e => ⟨(s.drop b).take (e - b)⟩
  | _, _ => ""

/-- Model of `(*Regexp).FindStringSubmatch`: `none` is the `nil` slice; otherwise a
slice of `1 + numSubexp` strings. -/
def Regexp.FindStringSubmatch (re : Regexp) (s : String) : Option (List String) :=
  match findFrom re s.data 0 with
  | none => none
  | some cap => some ((List.range (1 + re.numSubexp)).map (submatch s.data cap))

/-- Model of `(*Regexp).MatchString`. -/
def Regexp.MatchString (re : Regexp) (s : String) : Bool :=
  (findFrom re s.data 0).isSome

/-! ## `logtail.go`: the patterns and `parseLine` -/

/-- The pattern `\[CHAT\]\s+(.+?):\s+(.+)`. -/
def chatPattern : Regexp :=
  { items := litStr "[CHAT]" ++ [Item.plus true .space,
      Item.gopen 1, Item.plus false .dot, Item.gclose 1,
      Item.lit ':', Item.plus true .space,
      Item.gopen 2, Item.plus true .dot, Item.gclose 2],
    numSubexp := 2 }

/-- The pattern `(.+?)\s+joined the game`. -/
def joinPattern : Regexp :=
  { items := [Item.gopen 1, Item.plus false .dot, Item.gclose 1, Item.plus true .space]
      ++ litStr "joined the game",
    numSubexp := 1 }

/-- The pattern `(.+?)\s+left the game`. -/
def leavePattern : Regexp :=
  { items := [Item.gopen 1, Item.plus false .dot, Item.gclose 1, Item.plus true .space]
      ++ litStr "left the game",
    numSubexp := 1 }

/-- The pattern `Research finished:\s+(.+)`. -/
def researchPattern : Regexp :=
  { items := litStr "Research finished:" ++ [Item.plus true .space,
      Item.gopen 1, Item.plus true .dot, Item.gclose 1],
    numSubexp := 1 }

/-- The pattern `Rocket launched`. -/
def rocketPattern : Regexp :=
  { items := litStr "Rocket launched", numSubexp := 0 }

/-- The pattern `Saving game as\s+(.+)`. -/
def savePattern : Regexp :=
  { items := litStr "Saving game as" ++ [Item.plus true .space,
      Item.gopen 1, Item.plus true .dot, Item.gclose 1],
    numSubexp := 1 }

/-- The record handed to the OTel logger by `logEvent`: the event name is the
body, the key-value pairs are the attributes (the timestamp is left out). -/
structure LogEvent where
  body : String
  attrs : List (String × String)
  deriving DecidableEq, Repr

/-- Model of `logEvent`: the record that is emitted. -/
def logEvent (event : String) (attrs : List (String × String)) : LogEvent :=
  { body := event, attrs := attrs }

/-- A run-time panic of the Go program. -/
inductive Panic where
  | indexOutOfRange
  deriving DecidableEq, Repr

/-- Slice indexing `m[i]`, which panics when `i` is out of range. -/
def index (m : List String) (i : Nat) : Except Panic String :=
  match m[i]? with
  | some s => .ok s
  | none => .error .indexOutOfRange

/-- Model of `(*LogTailer).parseLine`: the list of records emitted through
`logEvent`, or the panic that aborts the call. -/
def parseLine (line : String) : Except Panic (List LogEvent) :=
  match chatPattern.FindStringSubmatch line with
  | some m => do
    let player ← index m 1
    let message ← index m 2
    pure [logEvent "chat" [("player", player), ("message", message)]]
  | none =>
  match joinPattern.FindStringSubmatch line with
  | some m => do
    let player ← index m 1
    pure [logEvent "join" [("player", player)]]
  | none =>
  match leavePattern.FindStringSubmatch line with
  | some m => do
    let player ← index m 1
    pure [logEvent "leave" [("player", player)]]
  | none =>
  match researchPattern.FindStringSubmatch line with
  | some m => do
    let tech ← index m 1
    pure [logEvent "research" [("tech", tech)]]
  | none =>
  if rocketPattern.MatchString line then
    pure [logEvent "rocket" []]
  else
  match savePattern.FindStringSubmatch line with
  | some m => do
    let name ← index m 1
    pure [logEvent "save" [("name", name)]]
  | none => pure []

/-! ## `logtail.go`: `findPod`, `streamLogs`, `tail` and `Run` -/

/-- The receiver of the tailer methods (the OTel logger is not modelled as data;
what is sent to it appears in the trace). -/
structure LogTailer where
  /-- The field `namespace` of the source (the word is reserved in Lean). -/
  ns : String
  podLabel : String
  deriving Repr

/-- What `findPod` runs into, in the order in which the function can fail. -/
inductive PodListReply where
  /-- The call `t.k8sClient()` returns an error. -/
  | clientError (err : String)
  /-- The call `client.Do(req)` returns an error. -/
  | doError (err : String)
  /-- The response has a status code other than 200. -/
  | badStatus (status body : String)
  /-- The response body does not decode. -/
  | decodeError (err : String)
  /-- The decoded `result.Items`, each item given by its `Metadata.Name`. -/
  | items (names : List String)
  deriving DecidableEq, Repr

/-- What `streamLogs` and the scanner of `tail` run into. -/
inductive StreamReply where
  /-- The call `t.k8sClient()` returns an error. -/
  | clientError (err : String)
  /-- The call `client.Do(req)` returns an error. -/
  | doError (err : String)
  /-- The response has a status code other than 200. -/
  | badStatus (status body : String)
  /-- A body was returned.  `lines` are the tokens `scanner.Text()` yields, each
  with the value of `ctx.Err() != nil` at the check that follows its scan;
  `scanErr` is `scanner.Err()` once `Scan` returns false: `none` at end of
  stream, the read error otherwise. -/
  | body (lines : List (String × Bool)) (scanErr : Option String)
  deriving DecidableEq, Repr

/-- What the outside world does during one iteration of the loop of `Run`.  The
`done...` fields say whether the context is already cancelled at the points
where the iteration consults it; a field is read only if control gets there. -/
structure Attempt where
  /-- The context is done when `findPod` calls `client.Do`. -/
  doneAtFind : Bool
  pods : PodListReply
  /-- The context is done when `streamLogs` calls `client.Do`. -/
  doneAtStream : Bool
  stream : StreamReply
  /-- The value of `ctx.Err() != nil` in `Run` after `tail` returned an error. -/
  doneAfterTail : Bool
  /-- The `select` of `Run` receives from `ctx.Done()` before the timer fires. -/
  doneInBackoff : Bool
  deriving DecidableEq, Repr

/-- The observable actions of the tailer.  `ctxDone` is a ghost action: it marks
a point where the code finds the context cancelled. -/
inductive TailEffect where
  /-- The pod-list request of `findPod` is sent. -/
  | listPods
  /-- The line `tailing logs from pod ns/pod` is logged. -/
  | logTailing (ns pod : String)
  /-- The follow-mode log request of `streamLogs` is sent. -/
  | openStream (pod : String)
  /-- The call `logEvent` emits a record. -/
  | emit (e : LogEvent)
  /-- The line `log tail error: err, retrying in 5s` is logged. -/
  | logError (err : String)
  /-- The timer `time.After(seconds * time.Second)` of the `select` fires. -/
  | backoff (seconds : Nat)
  /-- The code finds the context cancelled. -/
  | ctxDone
  /-- The goroutine panics. -/
  | panic (p : Panic)
  deriving DecidableEq, Repr

/-- Model of `(*LogTailer).findPod`.  A request made with a context that is
already done is not sent: `client.Do` returns the context's error. -/
def findPod (t : LogTailer) (done : Bool) (reply : PodListReply) :
    List TailEffect × Except String String :=
  match reply with
  | .clientError err => ([], .error err)
  | .doError err =>
    if done then ([.ctxDone], .error "context canceled") else ([.listPods], .error err)
  | .badStatus status body =>
    if done then ([.ctxDone], .error "context canceled")
    else ([.listPods], .error ("list pods: " ++ status ++ " " ++ body))
  | .decodeError err =>
    if done then ([.ctxDone], .error "context canceled") else ([.listPods], .error err)
  | .items names =>
    if done then ([.ctxDone], .error "context canceled")
    else match names with
      | [] => ([.listPods], .error ("no pods found with label " ++ t.podLabel))
      | name :: _ => ([.listPods], .ok name)

/-- How the scanning loop of `tail` ends. -/
inductive ScanEnd where
  /-- The check `ctx.Err() != nil` succeeded: `return nil`. -/
  | cancelled
  /-- The call `scanner.Scan()` returned false: `return scanner.Err()`. -/
  | finished
  /-- The call `parseLine` panicked. -/
  | panicked
  deriving DecidableEq, Repr

/-- The loop `for scanner.Scan() { ... }` of `tail`. -/
def scanLoop : List (String × Bool) → List TailEffect × ScanEnd
  | [] => ([], .finished)
  | (line, done) :: rest =>
    if done then ([.ctxDone], .cancelled)
    else match parseLine line with
      | .error p => ([.panic p], .panicked)
      | .ok events =>
        let r := scanLoop rest
        (events.map TailEffect.emit ++ r.1, r.2)

/-- Model of `(*LogTailer).streamLogs`: on success the body, given by what the
scanner will read from it.  A request made with a context that is already done
is not sent: `client.Do` returns the context's error. -/
def streamLogs (done : Bool) (podName : String) (reply : StreamReply) :
    List TailEffect × Except String (List (String × Bool) × Option String) :=
  match reply with
  | .clientError err => ([], .error err)
  | .doError err =>
    if done then ([.ctxDone], .error "context canceled") else ([.openStream podName], .error err)
  | .badStatus status body =>
    if done then ([.ctxDone], .error "context canceled")
    else ([.openStream podName], .error ("stream logs: " ++ status ++ " " ++ body))
  | .body lines scanErr =>
    if done then ([.ctxDone], .error "context canceled")
    else ([.openStream podName], .ok (lines, scanErr))

/-- How a call of `tail` ends: with its return value, or in a panic. -/
inductive TailResult where
  | ret (err : Option String)
  | panicked
  deriving DecidableEq, Repr

/-- Model of `(*LogTailer).tail`. -/
def tail (t : LogTailer) (a : Attempt) : List TailEffect × TailResult :=
  match findPod t a.doneAtFind a.pods with
  | (tr1, .error err) => (tr1, .ret (some ("find pod: " ++ err)))
  | (tr1, .ok podName) =>
    match streamLogs a.doneAtStream podName a.stream with
    | (tr2, .error err) =>
      (tr1 ++ [TailEffect.logTailing t.ns podName] ++ tr2, .ret (some ("stream logs: " ++ err)))
    | (tr2, .ok (lines, scanErr)) =>
      let r := scanLoop lines
      match r.2 with
      | .cancelled => (tr1 ++ [TailEffect.logTailing t.ns podName] ++ tr2 ++ r.1, .ret none)
      | .finished => (tr1 ++ [TailEffect.logTailing t.ns podName] ++ tr2 ++ r.1, .ret scanErr)
      | .panicked => (tr1 ++ [TailEffect.logTailing t.ns podName] ++ tr2 ++ r.1, .panicked)

/-- How far `Run` got on a script of attempts. -/
inductive RunStatus where
  /-- The function `Run` returned. -/
  | returned
  /-- The goroutine panicked. -/
  | panicked
  /-- The script is used up and `Run` is still in its loop. -/
  | looping
  deriving DecidableEq, Repr

/-- Model of `(*LogTailer).Run`: one element of the script is consumed by each
iteration of the `for` loop. -/
def Run (t : LogTailer) : List Attempt → List TailEffect × RunStatus
  | [] => ([], .looping)
  | a :: rest =>
    match tail t a with
    | (tr, .panicked) => (tr, .panicked)
    | (tr, .ret none) =>
      let r := Run t rest
      (tr ++ r.1, r.2)
    | (tr, .ret (some err)) =>
      if a.doneAfterTail then (tr ++ [.ctxDone], .returned)
      else if a.doneInBackoff then (tr ++ [.logError err, .ctxDone], .returned)
      else
        let r := Run t rest
        (tr ++ [.logError err, .backoff 5] ++ r.1, r.2)

/-- The context checks made while the body is scanned, in program order. -/
def StreamReply.checks : StreamReply → List Bool
  | .body lines _ => lines.map Prod.snd
  | _ => []

/-- The context observations of an attempt, in program order. -/
def Attempt.observations (a : Attempt) : List Bool :=
  [a.doneAtFind, a.doneAtStream] ++ a.stream.checks ++ [a.doneAfterTail, a.doneInBackoff]

/-- A sequence of observations of one context: once done, always done. -/
def doneForGood : List Bool → Bool
  | [] => true
  | b :: rest => if b then rest.all id else doneForGood rest

/-- A context never goes back from done to not done. -/
def ContextMonotone (script : List Attempt) : Prop :=
  doneForGood (script.flatMap Attempt.observations) = true

instance (script : List Attempt) : Decidable (ContextMonotone script) :=
  inferInstanceAs (Decidable (_ = true))

/-! ## `collector.go` and `attrs.go`: the snapshot and `record` -/

/-- The thirteen instruments created by `NewCollector`. -/
inductive Instrument where
  | players | evolution | tick | rocketsLaunched | researchProgress
  | itemProduction | itemConsumption | fluidProduction | fluidConsumption
  | powerProduction | powerConsumption | killCount | entityBuilt
  deriving DecidableEq, Repr

/-- The instrument names given to the meter in `NewCollector`. -/
def Instrument.name : Instrument → String
  | .players => "factorio_players"
  | .evolution => "factorio_evolution"
  | .tick => "factorio_tick"
  | .rocketsLaunched => "factorio_rockets_launched"
  | .researchProgress => "factorio_research_progress"
  | .itemProduction => "factorio_item_production"
  | .itemConsumption => "factorio_item_consumption"
  | .fluidProduction => "factorio_fluid_production"
  | .fluidConsumption => "factorio_fluid_consumption"
  | .powerProduction => "factorio_power_production"
  | .powerConsumption => "factorio_power_consumption"
  | .killCount => "factorio_kill_count"
  | .entityBuilt => "factorio_entity_built"

/-- A string-valued attribute, `attribute.String(key, value)`. -/
structure KeyValue where
  key : String
  value : String
  deriving DecidableEq, Repr

/-- Model of `nameAttribute`. -/
def nameAttribute (name : String) : KeyValue :=
  { key := "name", value := name }

/-- The value handed to a gauge: `Int64Gauge` takes an `int64`, `Float64Gauge` a
`float64`. -/
inductive GaugeValue (F : Type) where
  | int (i : Int)
  | float (x : F)
  deriving DecidableEq, Repr

/-- One call `instrument.Record(ctx, value, metric.WithAttributes(attrs...))`. -/
structure Measurement (F : Type) where
  instrument : Instrument
  value : GaugeValue F
  attrs : List KeyValue
  deriving DecidableEq, Repr

/-- A Go `map[string]float64`: `none` is the nil map; otherwise the entries, in
the order in which a `range` loop visits them. -/
abbrev GoMap (F : Type) := Option (List (String × F))

/-- The entries a `range` loop over the map visits (none for the nil map). -/
def GoMap.entries {F : Type} : GoMap F → List (String × F)
  | none => []
  | some es => es

/-- The assignment `m[k] = v` of an entry (on the map `Unmarshal` has made
non-nil before). -/
def GoMap.insert {F : Type} (m : GoMap F) (k : String) (v : F) : GoMap F :=
  if m.entries.any (fun e => e.1 == k) then
    some (m.entries.map fun e => if e.1 == k then (k, v) else e)
  else some (m.entries ++ [(k, v)])

/-- The struct `FactorioStats`. -/
structure FactorioStats (F : Type) where
  Tick : Int
  Players : Int
  Evolution : F
  ItemProduction : GoMap F
  ItemConsumption : GoMap F
  FluidProduction : GoMap F
  FluidConsumption : GoMap F
  KillCounts : GoMap F
  EntityBuilt : GoMap F
  PowerProduction : GoMap F
  PowerConsumption : GoMap F
  RocketsLaunched : Int
  Research : Option String
  ResearchProgress : F
  deriving Repr

/-- The body of a loop over a mapping: the call
`g.Record(ctx, val, metric.WithAttributes(nameAttribute(name)))` for the entry
`(name, val)`. -/
def recordEntry {F : Type} (g : Instrument) (e : String × F) : Measurement F :=
  { instrument := g, value := .float e.2, attrs := [nameAttribute e.1] }

/-- The measurements of one loop `for name, val := range m { g.Record(...) }`. -/
def recordMap {F : Type} (g : Instrument) (m : GoMap F) : List (Measurement F) :=
  m.entries.map (recordEntry g)

/-- Model of `(*Collector).record`: the calls of `Record`, in program order. -/
def record {F : Type} (s : FactorioStats F) : List (Measurement F) :=
  [ { instrument := .players, value := .int s.Players, attrs := [] },
    { instrument := .evolution, value := .float s.Evolution, attrs := [] },
    { instrument := .tick, value := .int s.Tick, attrs := [] },
    { instrument := .rocketsLaunched, value := .int s.RocketsLaunched, attrs := [] },
    { instrument := .researchProgress, value := .float s.ResearchProgress, attrs := [] } ]
  ++ recordMap .itemProduction s.ItemProduction
  ++ recordMap .itemConsumption s.ItemConsumption
  ++ recordMap .fluidProduction s.FluidProduction
  ++ recordMap .fluidConsumption s.FluidConsumption
  ++ recordMap .powerProduction s.PowerProduction
  ++ recordMap .powerConsumption s.PowerConsumption
  ++ recordMap .killCount s.KillCounts
  ++ recordMap .entityBuilt s.EntityBuilt

/-- The eight mapping fields of `FactorioStats`. -/
inductive MapField where
  | ItemProduction | ItemConsumption | FluidProduction | FluidConsumption
  | KillCounts | EntityBuilt | PowerProduction | PowerConsumption
  deriving DecidableEq, Repr

/-- The JSON name in the struct tag of a mapping field. -/
def MapField.jsonName : MapField → String
  | .ItemProduction => "item_production"
  | .ItemConsumption => "item_consumption"
  | .FluidProduction => "fluid_production"
  | .FluidConsumption => "fluid_consumption"
  | .KillCounts => "kill_counts"
  | .EntityBuilt => "entity_built"
  | .PowerProduction => "power_production"
  | .PowerConsumption => "power_consumption"

/-- The instrument on which `record` reports a mapping field. -/
def MapField.instrument : MapField → Instrument
  | .ItemProduction => .itemProduction
  | .ItemConsumption => .itemConsumption
  | .FluidProduction => .fluidProduction
  | .FluidConsumption => .fluidConsumption
  | .KillCounts => .killCount
  | .EntityBuilt => .entityBuilt
  | .PowerProduction => .powerProduction
  | .PowerConsumption => .powerConsumption

/-- Reading a mapping field of the struct. -/
def FactorioStats.getMap {F : Type} (s : FactorioStats F) : MapField → GoMap F
  | .ItemProduction => s.ItemProduction
  | .ItemConsumption => s.ItemConsumption
  | .FluidProduction => s.FluidProduction
  | .FluidConsumption => s.FluidConsumption
  | .KillCounts => s.KillCounts
  | .EntityBuilt => s.EntityBuilt
  | .PowerProduction => s.PowerProduction
  | .PowerConsumption => s.PowerConsumption

/-- Writing a mapping field of the struct. -/
def FactorioStats.setMap {F : Type} (s : FactorioStats F) (f : MapField) (m : GoMap F) :
    FactorioStats F :=
  match f with
  | .ItemProduction => { s with ItemProduction := m }
  | .ItemConsumption => { s with ItemConsumption := m }
  | .FluidProduction => { s with FluidProduction := m }
  | .FluidConsumption => { s with FluidConsumption := m }
  | .KillCounts => { s with KillCounts := m }
  | .EntityBuilt => { s with EntityBuilt := m }
  | .PowerProduction => { s with PowerProduction := m }
  | .PowerConsumption => { s with PowerConsumption := m }

/-- All mapping fields. -/
def MapField.all : List MapField :=
  [.ItemProduction, .ItemConsumption, .FluidProduction, .FluidConsumption,
   .KillCounts, .EntityBuilt, .PowerProduction, .PowerConsumption]

/-- The five scalar instruments with the value `record` reports on each. -/
def scalarValue {F : Type} (s : FactorioStats F) : Instrument → Option (GaugeValue F)
  | .players => some (.int s.Players)
  | .evolution => some (.float s.Evolution)
  | .tick => some (.int s.Tick)
  | .rocketsLaunched => some (.int s.RocketsLaunched)
  | .researchProgress => some (.float s.ResearchProgress)
  | _ => none

/-- A Go map has one entry per key. -/
def GoMap.WellFormed {F : Type} (m : GoMap F) : Prop :=
  (m.entries.map Prod.fst).Nodup

/-- Every mapping of the snapshot has one entry per key. -/
def FactorioStats.WellFormed {F : Type} (s : FactorioStats F) : Prop :=
  ∀ f : MapField, (s.getMap f).WellFormed

/-! ## `encoding/json`: the text of a JSON value -/

/-- A JSON value.  A number keeps its literal: it is converted only when it is
stored into a Go value. -/
inductive Json where
  | null
  | bool (b : Bool)
  | num (lit : String)
  | str (s : String)
  | arr (elems : List Json)
  | obj (members : List (String × Json))

/-- JSON white space: space, tab, carriage return, newline. -/
def isJsonSpace (c : Char) : Bool :=
  c == ' ' || c == '\t' || c == '\r' || c == '\n'

/-- Skipping white space between tokens. -/
def skipSpace (inp : List Char) : List Char := inp.dropWhile isJsonSpace

/-- The longest run of decimal digits at the head of the input. -/
def takeDigits (inp : List Char) : List Char × List Char := inp.span Char.isDigit

/-- The optional fraction `.digits` of a number. -/
def scanFrac (inp : List Char) : Option (List Char × List Char) :=
  match inp with
  | '.' :: rest =>
    match takeDigits rest with
    | ([], _) => none
    | (ds, rest) => some ('.' :: ds, rest)
  | _ => some ([], inp)

/-- The optional exponent `e`, sign, digits of a number. -/
def scanExp (inp : List Char) : Option (List Char × List Char) :=
  match inp with
  | [] => some ([], [])
  | e :: rest =>
    if e == 'e' || e == 'E' then
      match rest with
      | [] => none
      | sg :: rest2 =>
        if sg == '+' || sg == '-' then
          match takeDigits rest2 with
          | ([], _) => none
          | (ds, rest3) => some (e :: sg :: ds, rest3)
        else
          match takeDigits rest with
          | ([], _) => none
          | (ds, rest3) => some (e :: ds, rest3)
    else some ([], inp)

/-- The integer part of a number: `0`, or a non-zero digit and more digits. -/
def scanInt (inp : List Char) : Option (List Char × List Char) :=
  match inp with
  | [] => none
  | d :: rest =>
    if d == '0' then some (['0'], rest)
    else if d.isDigit then
      let r := takeDigits rest
      some (d :: r.1, r.2)
    else none

/-- A number literal at the head of the input, and the rest of the input. -/
def scanNumber (inp : List Char) : Option (String × List Char) :=
  let sign : List Char × List Char :=
    match inp with
    | '-' :: rest => (['-'], rest)
    | _ => ([], inp)
  match scanInt sign.2 with
  | none => none
  | some (ip, rest) =>
    match scanFrac rest with
    | none => none
    | some (fp, rest) =>
      match scanExp rest with
      | none => none
      | some (ep, rest) => some (⟨sign.1 ++ ip ++ fp ++ ep⟩, rest)

/-- The value of a hexadecimal digit. -/
def hexVal (c : Char) : Option Nat :=
  if c.isDigit then some (c.toNat - '0'.toNat)
  else if 'a'.toNat ≤ c.toNat ∧ c.toNat ≤ 'f'.toNat then some (c.toNat - 'a'.toNat + 10)
  else if 'A'.toNat ≤ c.toNat ∧ c.toNat ≤ 'F'.toNat then some (c.toNat - 'A'.toNat + 10)
  else none

/-- The code unit written by the four hexadecimal digits of a `\u` escape. -/
def hex4 (a b c d : Char) : Option Nat :=
  match hexVal a, hexVal b, hexVal c, hexVal d with
  | some w, some x, some y, some z => some (((w * 16 + x) * 16 + y) * 16 + z)
  | _, _, _, _ => none

/-- The double quote that delimits a string literal. -/
def quoteChar : Char := Char.ofNat 34

/-- The backslash that starts an escape. -/
def backslashChar : Char := Char.ofNat 92

/-- The replacement character U+FFFD. -/
def replacementChar : Char := Char.ofNat 0xFFFD

/-- The contents of a string literal whose opening quote has been read, with the
escapes replaced as `unquote` does: a pair of surrogate escapes is one
character, a surrogate without partner is U+FFFD.  `acc` holds the characters
read so far, last first. -/
def scanString : Nat → List Char → List Char → Option (String × List Char)
  | 0, _, _ => none
  | _ + 1, [], _ => none
  | fuel + 1, c :: rest, acc =>
    if c == quoteChar then some (⟨acc.reverse⟩, rest)
    else if c == backslashChar then
      match rest with
      | [] => none
      | e :: rest2 =>
        if e == quoteChar then scanString fuel rest2 (quoteChar :: acc)
        else if e == backslashChar then scanString fuel rest2 (backslashChar :: acc)
        else if e == '/' then scanString fuel rest2 ('/' :: acc)
        else if e == 'b' then scanString fuel rest2 (Char.ofNat 8 :: acc)
        else if e == 'f' then scanString fuel rest2 (Char.ofNat 12 :: acc)
        else if e == 'n' then scanString fuel rest2 ('\n' :: acc)
        else if e == 'r' then scanString fuel rest2 ('\r' :: acc)
        else if e == 't' then scanString fuel rest2 ('\t' :: acc)
        else if e == 'u' then
          match rest2 with
          | h1 :: h2 :: h3 :: h4 :: rest3 =>
            match hex4 h1 h2 h3 h4 with
            | none => none
            | some u =>
              if 0xD800 ≤ u ∧ u < 0xE000 then
                match rest3 with
                | b :: v :: l1 :: l2 :: l3 :: l4 :: rest4 =>
                  match hex4 l1 l2 l3 l4 with
                  | some lo =>
                    if b == backslashChar ∧ v == 'u' ∧ u < 0xDC00 ∧ 0xDC00 ≤ lo ∧ lo < 0xE000 then
                      scanString fuel rest4
                        (Char.ofNat (0x10000 + (u - 0xD800) * 0x400 + (lo - 0xDC00)) :: acc)
                    else scanString fuel rest3 (replacementChar :: acc)
                  | none => scanString fuel rest3 (replacementChar :: acc)
                | _ => scanString fuel rest3 (replacementChar :: acc)
              else scanString fuel rest3 (Char.ofNat u :: acc)
          | _ => none
        else none
    else if c.toNat < 0x20 then none
    else scanString fuel rest (c :: acc)

/-- The deepest nesting of arrays and objects the scanner accepts. -/
def maxNestingDepth : Nat := 10000

mutual
/-- A JSON value at the head of the input, nested `depth` levels deep. -/
def scanValue : Nat → Nat → List Char → Option (Json × List Char)
  | 0, _, _ => none
  | _ + 1, _, [] => none
  | fuel + 1, depth, c :: rest =>
    if c == '{' then
      if depth + 1 > maxNestingDepth then none
      else match skipSpace rest with
        | [] => none
        | c2 :: rest2 =>
          if c2 == '}' then some (Json.obj [], rest2)
          else scanMembers fuel (depth + 1) (c2 :: rest2) []
    else if c == '[' then
      if depth + 1 > maxNestingDepth then none
      else match skipSpace rest with
        | [] => none
        | c2 :: rest2 =>
          if c2 == ']' then some (Json.arr [], rest2)
          else scanElems fuel (depth + 1) (c2 :: rest2) []
    else if c == quoteChar then
      match scanString (rest.length + 1) rest [] with
      | none => none
      | some (s, rest2) => some (Json.str s, rest2)
    else if c == 't' then
      match rest with
      | 'r' :: 'u' :: 'e' :: rest2 => some (Json.bool true, rest2)
      | _ => none
    else if c == 'f' then
      match rest with
      | 'a' :: 'l' :: 's' :: 'e' :: rest2 => some (Json.bool false, rest2)
      | _ => none
    else if c == 'n' then
      match rest with
      | 'u' :: 'l' :: 'l' :: rest2 => some (Json.null, rest2)
      | _ => none
    else
      match scanNumber (c :: rest) with
      | none => none
      | some (lit, rest2) => some (Json.num lit, rest2)
/-- The elements of an array after its opening bracket; `acc` holds the
elements read so far, last first. -/
def scanElems : Nat → Nat → List Char → List Json → Option (Json × List Char)
  | 0, _, _, _ => none
  | fuel + 1, depth, inp, acc =>
    match scanValue fuel depth inp with
    | none => none
    | some (v, rest) =>
      match skipSpace rest with
      | [] => none
      | c :: rest2 =>
        if c == ',' then scanElems fuel depth (skipSpace rest2) (v :: acc)
        else if c == ']' then some (Json.arr (v :: acc).reverse, rest2)
        else none
/-- The members of an object after its opening brace; `acc` holds the members
read so far, last first. -/
def scanMembers : Nat → Nat → List Char → List (String × Json) → Option (Json × List Char)
  | 0, _, _, _ => none
  | fuel + 1, depth, inp, acc =>
    match inp with
    | [] => none
    | q :: rest =>
      if q == quoteChar then
        match scanString (rest.length + 1) rest [] with
        | none => none
        | some (key, rest2) =>
          match skipSpace rest2 with
          | [] => none
          | c :: rest3 =>
            if c == ':' then
              match scanValue fuel depth (skipSpace rest3) with
              | none => none
              | some (v, rest4) =>
                match skipSpace rest4 with
                | [] => none
                | c2 :: rest5 =>
                  if c2 == ',' then scanMembers fuel depth (skipSpace rest5) ((key, v) :: acc)
                  else if c2 == '}' then some (Json.obj ((key, v) :: acc).reverse, rest5)
                  else none
            else none
      else none
end

/-- The JSON value a text consists of, or `none` when the text is not
syntactically valid JSON (the check `checkValid` of `Unmarshal`). -/
def parseJson (data : String) : Option Json :=
  match scanValue (2 * data.data.length + 2) 0 (skipSpace data.data) with
  | none => none
  | some (v, rest) => if (skipSpace rest).isEmpty then some v else none

/-! ## `encoding/json`: storing a JSON value into a `FactorioStats` -/

/-- The conversions of `float64` the decoder needs. -/
structure FloatConv (F : Type) where
  /-- The zero value of `float64`. -/
  zero : F
  /-- The call `strconv.ParseFloat(lit, 64)` on a JSON number literal; `none`
  when the literal is out of range. -/
  parseFloat : String → Option F

/-- The value of a string of decimal digits. -/
def digitsValue (ds : List Char) : Nat :=
  ds.foldl (fun n d => 10 * n + (d.toNat - '0'.toNat)) 0

/-- The call `strconv.ParseInt(lit, 10, 64)` on a JSON number literal: the
literal must be an optional minus sign and digits, within the range of
`int64`. -/
def parseInt64 (lit : String) : Option Int :=
  match lit.data with
  | '-' :: ds =>
    if !ds.isEmpty && ds.all Char.isDigit && decide (digitsValue ds ≤ 2 ^ 63) then
      some (-(digitsValue ds : Int))
    else none
  | ds =>
    if !ds.isEmpty && ds.all Char.isDigit && decide (digitsValue ds < 2 ^ 63) then
      some (digitsValue ds : Int)
    else none

/-- The errors `json.Unmarshal` returns. -/
inductive JsonError where
  /-- A `SyntaxError`: the text is not valid JSON. -/
  | syntaxError
  /-- An `UnmarshalTypeError`: a JSON value of kind `value` cannot be stored into
  a Go value of type `type`. -/
  | typeError (value : String) (type : String)
  deriving DecidableEq, Repr

/-- The fields of `FactorioStats`. -/
inductive Field where
  | Tick | Players | Evolution
  | map (f : MapField)
  | RocketsLaunched | Research | ResearchProgress
  deriving DecidableEq, Repr

/-- The JSON name in the struct tag of a field. -/
def Field.jsonName : Field → String
  | .Tick => "tick"
  | .Players => "players"
  | .Evolution => "evolution"
  | .map f => f.jsonName
  | .RocketsLaunched => "rockets_launched"
  | .Research => "research"
  | .ResearchProgress => "research_progress"

/-- The fields in the order of the struct declaration. -/
def Field.all : List Field :=
  [.Tick, .Players, .Evolution,
   .map .ItemProduction, .map .ItemConsumption, .map .FluidProduction, .map .FluidConsumption,
   .map .KillCounts, .map .EntityBuilt, .map .PowerProduction, .map .PowerConsumption,
   .RocketsLaunched, .Research, .ResearchProgress]

/-- Case folding of one character of a name: ASCII letters are folded to upper
case, and the two characters outside ASCII whose case folding is an ASCII
letter, U+017F and U+212A, to `S` and `K`.  (Other characters outside ASCII are
left alone: their folding is never an ASCII character, and the names compared
with are ASCII.) -/
def foldChar (c : Char) : Char :=
  if 'a'.toNat ≤ c.toNat ∧ c.toNat ≤ 'z'.toNat then Char.ofNat (c.toNat - 32)
  else if c.toNat = 0x17F then 'S'
  else if c.toNat = 0x212A then 'K'
  else c

/-- Case folding of a name, `foldName`. -/
def foldName (s : String) : String := ⟨s.data.map foldChar⟩

/-- The struct field an object key is stored into: the field whose name is
the key, else the field whose name equals the key under case folding. -/
def findField (key : String) : Option Field :=
  match Field.all.find? (fun f => f.jsonName == key) with
  | some f => some f
  | none => Field.all.find? (fun f => foldName f.jsonName == foldName key)

/-- The state of a decoding: the struct being filled and the first type error
met so far (`d.savedError`). -/
structure DecodeState (F : Type) where
  stats : FactorioStats F
  savedError : Option JsonError

/-- The method `saveError`: only the first error is kept. -/
def DecodeState.saveError {F : Type} (d : DecodeState F) (err : JsonError) : DecodeState F :=
  match d.savedError with
  | none => { d with savedError := some err }
  | some _ => d

/-- The kind of a JSON value as named in an `UnmarshalTypeError`. -/
def Json.kind : Json → String
  | .null => "null"
  | .bool _ => "bool"
  | .num lit => "number " ++ lit
  | .str _ => "string"
  | .arr _ => "array"
  | .obj _ => "object"

/-- Storing a JSON value into an `int64`: `null` leaves the value as it is, a
number is converted by `ParseInt`, everything else is a type error. -/
def storeInt64 (v : Json) (cur : Int) : Except JsonError Int :=
  match v with
  | .null => .ok cur
  | .num lit =>
    match parseInt64 lit with
    | some n => .ok n
    | none => .error (.typeError v.kind "int64")
  | _ => .error (.typeError v.kind "int64")

/-- Storing a JSON value into a `float64`: `null` leaves the value as it is, a
number is converted by `ParseFloat`, everything else is a type error. -/
def storeFloat64 {F : Type} (fl : FloatConv F) (v : Json) (cur : F) : Except JsonError F :=
  match v with
  | .null => .ok cur
  | .num lit =>
    match fl.parseFloat lit with
    | some x => .ok x
    | none => .error (.typeError v.kind "float64")
  | _ => .error (.typeError v.kind "float64")

/-- Storing a JSON value into a `*string`: `null` sets the pointer to nil, a
string sets it to the string, everything else is a type error. -/
def storeStringPtr (v : Json) (_cur : Option String) : Except JsonError (Option String) :=
  match v with
  | .null => .ok none
  | .str s => .ok (some s)
  | _ => .error (.typeError v.kind "string")

/-- Storing the members of a JSON object into a map that has been made non-nil:
each value is stored into a fresh zero element, which is then assigned under
the key, also when storing the value met a type error. -/
def storeMembers {F : Type} (fl : FloatConv F) :
    List (String × Json) → GoMap F → Option JsonError → GoMap F × Option JsonError
  | [], m, err => (m, err)
  | (k, v) :: rest, m, err =>
    match storeFloat64 fl v fl.zero with
    | .ok x => storeMembers fl rest (m.insert k x) err
    | .error e => storeMembers fl rest (m.insert k fl.zero) (match err with
        | none => some e
        | some e0 => some e0)

/-- Storing a JSON value into a `map[string]float64`: `null` sets the map to
nil, an object is stored member by member into the map (made first if it is
nil), everything else is a type error.  The result is the new map and the
first type error met, if any. -/
def storeMap {F : Type} (fl : FloatConv F) (v : Json) (cur : GoMap F) :
    GoMap F × Option JsonError :=
  match v with
  | .null => (none, none)
  | .obj members => storeMembers fl members (some cur.entries) none
  | _ => (cur, some (.typeError v.kind "map[string]float64"))

/-- Storing the value of one object member into the struct field `f`. -/
def storeField {F : Type} (fl : FloatConv F) (f : Field) (v : Json) (d : DecodeState F) :
    DecodeState F :=
  match f with
  | .Tick =>
    match storeInt64 v d.stats.Tick with
    | .ok n => { d with stats := { d.stats with Tick := n } }
    | .error e => d.saveError e
  | .Players =>
    match storeInt64 v d.stats.Players with
    | .ok n => { d with stats := { d.stats with Players := n } }
    | .error e => d.saveError e
  | .RocketsLaunched =>
    match storeInt64 v d.stats.RocketsLaunched with
    | .ok n => { d with stats := { d.stats with RocketsLaunched := n } }
    | .error e => d.saveError e
  | .Evolution =>
    match storeFloat64 fl v d.stats.Evolution with
    | .ok x => { d with stats := { d.stats with Evolution := x } }
    | .error e => d.saveError e
  | .ResearchProgress =>
    match storeFloat64 fl v d.stats.ResearchProgress with
    | .ok x => { d with stats := { d.stats with ResearchProgress := x } }
    | .error e => d.saveError e
  | .Research =>
    match storeStringPtr v d.stats.Research with
    | .ok p => { d with stats := { d.stats with Research := p } }
    | .error e => d.saveError e
  | .map mf =>
    match storeMap fl v (d.stats.getMap mf) with
    | (m, none) => { d with stats := d.stats.setMap mf m }
    | (m, some e) => ({ d with stats := d.stats.setMap mf m } : DecodeState F).saveError e

/-- Storing one object member: a key that names no field is skipped. -/
def storeMember {F : Type} (fl : FloatConv F) (d : DecodeState F) (kv : String × Json) :
    DecodeState F :=
  match findField kv.1 with
  | none => d
  | some f => storeField fl f kv.2 d

/-- The zero value of `FactorioStats`, as declared by `var stats FactorioStats`. -/
def FactorioStats.zero {F : Type} (fl : FloatConv F) : FactorioStats F :=
  { Tick := 0, Players := 0, Evolution := fl.zero,
    ItemProduction := none, ItemConsumption := none,
    FluidProduction := none, FluidConsumption := none,
    KillCounts := none, EntityBuilt := none,
    PowerProduction := none, PowerConsumption := none,
    RocketsLaunched := 0, Research := none, ResearchProgress := fl.zero }

/-- Storing a JSON value into a zero `FactorioStats`: `null` stores nothing, an
object is stored member by member, every other value is a type error.  The
first type error, if any, is what is returned. -/
def decodeStats {F : Type} (fl : FloatConv F) (v : Json) : Except JsonError (FactorioStats F) :=
  match v with
  | .null => .ok (FactorioStats.zero fl)
  | .obj members =>
    let d := members.foldl (storeMember fl) { stats := FactorioStats.zero fl, savedError := none }
    match d.savedError with
    | none => .ok d.stats
    | some e => .error e
  | _ => .error (.typeError v.kind "main.FactorioStats")

/-- Model of `json.Unmarshal([]byte(data), &stats)` for a zero `stats`. -/
def unmarshal {F : Type} (fl : FloatConv F) (data : String) :
    Except JsonError (FactorioStats F) :=
  match parseJson data with
  | none => .error .syntaxError
  | some v => decodeStats fl v

/-! ## `collector.go`: `collect` -/

/-- The predicate `unicode.IsSpace`. -/
def isSpace (c : Char) : Bool :=
  let n := c.toNat
  n == 0x09 || n == 0x0A || n == 0x0B || n == 0x0C || n == 0x0D || n == 0x20 ||
  n == 0x85 || n == 0xA0 || n == 0x1680 || (0x2000 ≤ n && n ≤ 0x200A) ||
  n == 0x2028 || n == 0x2029 || n == 0x202F || n == 0x205F || n == 0x3000

/-- Model of `strings.TrimSpace`. -/
def TrimSpace (s : String) : String :=
  ⟨((s.data.dropWhile isSpace).reverse.dropWhile isSpace).reverse⟩

/-- The receiver of the collector methods (the instruments are not modelled as
data; what is recorded on them appears in the trace). -/
structure Collector where
  addr : String
  password : String
  lua : String
  deriving Repr

/-- What the RCON server does during one cycle. -/
structure RconReply where
  /-- The error of `rcon.Dial`, if it fails. -/
  dial : Option String
  /-- The result of `conn.Execute`. -/
  execute : Except String String

/-- The observable actions of one collection cycle. -/
inductive CollectEffect (F : Type) where
  /-- The call `rcon.Dial(addr, password)`. -/
  | dial (addr password : String)
  /-- The call `conn.Execute(cmd)`. -/
  | execute (cmd : String)
  /-- The call `json.Unmarshal` on `data`. -/
  | unmarshal (data : String)
  /-- The line `rcon dial error: err` is logged. -/
  | logDialError (err : String)
  /-- The line `rcon execute error: err` is logged. -/
  | logExecuteError (err : String)
  /-- The line `empty response from rcon` is logged. -/
  | logEmptyResponse
  /-- The line `json parse error: err (response: payload)` is logged. -/
  | logParseError (err : JsonError) (payload : String)
  /-- A call of `Record` on an instrument. -/
  | record (m : Measurement F)
  /-- The deferred `conn.Close()`. -/
  | close
  deriving DecidableEq, Repr

/-- Model of the precision of the verb `%.200s`: the string is cut to its first
`n` characters. -/
def truncate (n : Nat) (s : String) : String := ⟨s.data.take n⟩

/-- The part of `collect` that follows a successful `conn.Execute`: lines 152 to
164. -/
def handleResponse {F : Type} (fl : FloatConv F) (resp : String) : List (CollectEffect F) :=
  let resp := TrimSpace resp
  if resp = "" then [.logEmptyResponse]
  else
    match unmarshal fl resp with
    | .error err => [.unmarshal resp, .logParseError err (truncate 200 resp)]
    | .ok stats => .unmarshal resp :: (record stats).map CollectEffect.record

/-- Model of `(*Collector).collect`: the trace of one cycle. -/
def collect {F : Type} (fl : FloatConv F) (c : Collector) (env : RconReply) :
    List (CollectEffect F) :=
  match env.dial with
  | some err => [.dial c.addr c.password, .logDialError err]
  | none =>
    match env.execute with
    | .error err => [.dial c.addr c.password, .execute ("/sc " ++ c.lua), .logExecuteError err, .close]
    | .ok resp =>
      [.dial c.addr c.password, .execute ("/sc " ++ c.lua)] ++ handleResponse fl resp ++ [.close]

/-- The measurement an action records, if it is a call of `Record`. -/
def CollectEffect.measurement {F : Type} : CollectEffect F → Option (Measurement F)
  | .record m => some m
  | _ => none

/-- The measurements recorded in a trace. -/
def measurements {F : Type} (tr : List (CollectEffect F)) : List (Measurement F) :=
  tr.filterMap CollectEffect.measurement

/-- An instance of the `float64` conversions for closed examples: a number is
represented by its literal. -/
def literalFloat : FloatConv String :=
  { zero := "0", parseFloat := fun lit => some lit }

/-! ## Notions used to state the properties -/

/-- The six patterns with the body of the event each stands for, in the order
in which `parseLine` tries them. -/
def patternOrder : List (String × Regexp) :=
  [("chat", chatPattern), ("join", joinPattern), ("leave", leavePattern),
   ("research", researchPattern), ("rocket", rocketPattern), ("save", savePattern)]

/-- The literal tail of a pattern does not overlap itself after a blank: no
prefix of a blank followed by `lit`, of length `1` to `lit.length`, is a suffix
of `lit`. -/
def borderFree (lit : List Char) : Bool :=
  (List.range lit.length).all fun i =>
    (' ' :: lit).take (i + 1) != lit.drop (lit.length - (i + 1))

/-- The error `tail` returns when the pod list is empty. -/
def noPodsError (t : LogTailer) : String :=
  "find pod: " ++ ("no pods found with label " ++ t.podLabel)

/-- What `Run` does in one failed discovery that is followed by a full backoff. -/
def failedDiscovery (t : LogTailer) : List TailEffect :=
  [.listPods, .logError (noPodsError t), .backoff 5]

/-- An attempt in which the pod list comes back empty and the context is not
cancelled before the backoff. -/
def Attempt.zeroCandidates (a : Attempt) : Prop :=
  a.pods = .items [] ∧ a.doneAtFind = false ∧ a.doneAfterTail = false

/-- After the first `ctxDone` of a trace, only `ctxDone` follows. -/
def quietAfterDone : List TailEffect → Bool
  | [] => true
  | e :: rest =>
    if e = TailEffect.ctxDone then rest.all fun x => decide (x = TailEffect.ctxDone)
    else quietAfterDone rest

/-- The context is found done somewhere inside `tail`. -/
def Attempt.seenInTail (a : Attempt) : Prop :=
  a.doneAtFind = true ∨ a.doneAtStream = true ∨
    ∃ lines scanErr, a.stream = .body lines scanErr ∧ ∃ l ∈ lines, l.2 = true

/-- A JSON object. -/
def Json.isObject : Json → Bool
  | .obj _ => true
  | _ => false

/-- The JSON value of an empty object. -/
def Json.isEmptyObject : Json → Bool
  | .obj [] => true
  | _ => false

/-- A JSON value that cannot be stored into a `float64` map element: anything
but `null` and a number. -/
def badElem : Json → Bool
  | .null => false
  | .num _ => false
  | _ => true

/-- A JSON value that is not `null` and has the wrong type for the field `f`:
for an integer field anything but an integer literal in range, for a float
field anything but a number, for the string field anything but a string, for a
mapping field anything but an object, or an object with a member that is
neither a number nor `null`. -/
def wrongType (f : Field) (v : Json) : Bool :=
  match f with
  | .Tick | .Players | .RocketsLaunched =>
    match v with
    | .null => false
    | .num lit => (parseInt64 lit).isNone
    | _ => true
  | .Evolution | .ResearchProgress =>
    match v with
    | .null => false
    | .num _ => false
    | _ => true
  | .Research =>
    match v with
    | .null => false
    | .str _ => false
    | _ => true
  | .map _ =>
    match v with
    | .null => false
    | .obj members => members.any fun kv => badElem kv.2
    | _ => true

/-- A member of a JSON object that is stored into a field and whose value is not
`null` and has the wrong type for the field. -/
def wrongMember (kv : String × Json) : Bool :=
  match findField kv.1 with
  | some f => wrongType f kv.2
  | none => false

/-- A payload that is malformed with respect to the schema of `FactorioStats`,
`null` set apart: it is not valid JSON, or its value is a boolean, a number, a
string or an array, or it is an object with a wrong member. -/
def malformed (data : String) : Bool :=
  match parseJson data with
  | none => true
  | some .null => false
  | some (.obj members) => members.any wrongMember
  | some _ => true

/-- The mapping field an object key is stored into, if it is stored into one. -/
def mapFieldOf (key : String) : Option MapField :=
  match findField key with
  | some (.map f) => some f
  | _ => none

/-- An object member that is not stored into one of the mapping fields in
`absent`. -/
def keepMember (absent : MapField → Bool) (kv : String × Json) : Bool :=
  match mapFieldOf kv.1 with
  | some f => !absent f
  | none => true

/-- The members of an object without those that are stored into one of the
mapping fields in `absent`. -/
def withoutFields (absent : MapField → Bool) (members : List (String × Json)) :
    List (String × Json) :=
  members.filter (keepMember absent)

/-- The scalar fields of the struct. -/
def FactorioStats.scalars {F : Type} (s : FactorioStats F) :
    Int × Int × F × Int × Option String × F :=
  (s.Tick, s.Players, s.Evolution, s.RocketsLaunched, s.Research, s.ResearchProgress)

/-- Two decoding states that differ at most in that mapping fields in `absent`
are nil in the first and empty in the second. -/
def SameUpTo {F : Type} (absent : MapField → Bool) (d d2 : DecodeState F) : Prop :=
  d.savedError = d2.savedError ∧ d.stats.scalars = d2.stats.scalars ∧
  ∀ f, (absent f = true → d.stats.getMap f = none ∧ (d2.stats.getMap f).entries = []) ∧
    (absent f = false → d.stats.getMap f = d2.stats.getMap f)

/-! ## Concrete inputs -/

/-- A collector as `main` configures it by default. -/
def exampleCollector : Collector :=
  { addr := "localhost:27015", password := "", lua := "rcon.print(stats())" }

/-- A tailer as `main` configures it by default. -/
def exampleTailer : LogTailer :=
  { ns := "factorio", podLabel := "app=factorio-factorio-server-charts" }

/-- The response of scenario A, the mapping fields it does not name being given
as empty. -/
def scenarioAResponse : String :=
  "\x7b\"tick\":100,\"players\":2,\"evolution\":0.05," ++
  "\"item_production\":\x7b\"iron-plate\":12.5\x7d,\"item_consumption\":\x7b\x7d," ++
  "\"fluid_production\":\x7b\x7d,\"fluid_consumption\":\x7b\x7d,\"kill_counts\":\x7b\x7d," ++
  "\"entity_built\":\x7b\x7d,\"power_production\":\x7b\x7d,\"power_consumption\":\x7b\x7d," ++
  "\"rockets_launched\":0,\"research_progress\":0.3,\"research\":null\x7d\n"

/-- The snapshot of scenario A. -/
def scenarioA : FactorioStats String :=
  { Tick := 100, Players := 2, Evolution := "0.05",
    ItemProduction := some [("iron-plate", "12.5")], ItemConsumption := some [],
    FluidProduction := some [], FluidConsumption := some [],
    KillCounts := some [], EntityBuilt := some [],
    PowerProduction := some [], PowerConsumption := some [],
    RocketsLaunched := 0, Research := none, ResearchProgress := "0.3" }

/-- A response in which two mapping fields are absent. -/
def sparseResponse : String := "\x7b\"tick\":100,\"players\":2\x7d\n"

/-- The same response with the two mapping fields given as empty objects. -/
def filledResponse : String :=
  "\x7b\"tick\":100,\"item_production\":\x7b\x7d,\"players\":2,\"kill_counts\":\x7b\x7d\x7d"

/-- The members of `filledResponse`. -/
def filledMembers : List (String × Json) :=
  [("tick", .num "100"), ("item_production", .obj []), ("players", .num "2"),
   ("kill_counts", .obj [])]

/-- The two mapping fields absent from `sparseResponse`. -/
def absentFields : MapField → Bool :=
  fun f => decide (f = .ItemProduction) || decide (f = .KillCounts)

/-- The snapshot `filledResponse` decodes to. -/
def filledStats : FactorioStats String :=
  { FactorioStats.zero literalFloat with
    Tick := 100, Players := 2, ItemProduction := some [], KillCounts := some [] }

/-- A response with a field of the wrong type. -/
def wrongTypeResponse : String := " \x7b\"tick\":\"soon\",\"players\":2\x7d "

/-- A response in which an integer field is given as `null`. -/
def nullFieldResponse : String := "\x7b\"tick\":null,\"players\":2\x7d"

/-- An attempt in which a pod is found and its stream ends, after one line, at
end of stream; the context is never cancelled. -/
def eofAttempt : Attempt :=
  { doneAtFind := false, pods := .items ["factorio-0"], doneAtStream := false,
    stream := .body [("Bob joined the game", false)] none,
    doneAfterTail := false, doneInBackoff := false }

/-- The same attempt with a read error in place of the end of stream. -/
def readErrorAttempt : Attempt :=
  { eofAttempt with stream := .body [("Bob joined the game", false)] (some "unexpected EOF") }

/-- An attempt in which the pod list is empty and the context is never
cancelled. -/
def emptyAttempt : Attempt :=
  { doneAtFind := false, pods := .items [], doneAtStream := false, stream := .body [] none,
    doneAfterTail := false, doneInBackoff := false }

/-- An attempt in which the pod list is empty and the context is cancelled during
the backoff. -/
def cancelledInBackoff : Attempt :=
  { emptyAttempt with doneInBackoff := true }

/-- An attempt in which the context is cancelled while the second line is
scanned. -/
def cancelledMidStream : Attempt :=
  { doneAtFind := false, pods := .items ["factorio-0"], doneAtStream := false,
    stream := .body [("Bob joined the game", false), ("Bob left the game", true)] none,
    doneAfterTail := true, doneInBackoff := true }

/-- An attempt made after the context has been cancelled. -/
def afterCancel : Attempt :=
  { doneAtFind := true, pods := .items ["factorio-0"], doneAtStream := true,
    stream := .body [] none, doneAfterTail := true, doneInBackoff := true }

/-! # Theorems -/

/-! ## The matcher -/



theorem starLoop_nil (g : Bool) (cls : CharClass) (k : List Char → Nat → Option Caps)
    (pos : Nat) : starLoop g cls k [] pos = k [] pos := rfl

theorem starLoop_cons_lazy (cls : CharClass) (k : List Char → Nat → Option Caps)
    (c : Char) (cs : List Char) (pos : Nat) :
    starLoop false cls k (c :: cs) pos =
      if cls.test c then
        match k (c :: cs) pos with
        | some r => some r
        | none => starLoop false cls k cs (pos + 1)
      else k (c :: cs) pos := rfl

theorem starLoop_cons_greedy (cls : CharClass) (k : List Char → Nat → Option Caps)
    (c : Char) (cs : List Char) (pos : Nat) :
    starLoop true cls k (c :: cs) pos =
      if cls.test c then
        match starLoop true cls k cs (pos + 1) with
        | some r => some r
        | none => k (c :: cs) pos
      else k (c :: cs) pos := rfl

theorem matchItems_lit_cons (a : Char) (rest : List Item) (cap : Caps) (c : Char)
    (cs : List Char) (pos : Nat) :
    matchItems (Item.lit a :: rest) cap (c :: cs) pos
      = if c = a then matchItems rest cap cs (pos + 1) else none := rfl

theorem matchItems_lit_nil (a : Char) (rest : List Item) (cap : Caps) (pos : Nat) :
    matchItems (Item.lit a :: rest) cap [] pos = none := rfl

theorem matchItems_plus_cons (g : Bool) (cls : CharClass) (rest : List Item) (cap : Caps)
    (c : Char) (cs : List Char) (pos : Nat) :
    matchItems (Item.plus g cls :: rest) cap (c :: cs) pos
      = if cls.test c then starLoop g cls (fun i p => matchItems rest cap i p) cs (pos + 1)
        else none := rfl

theorem matchItems_gopen (i : Nat) (rest : List Item) (cap : Caps) (inp : List Char)
    (pos : Nat) :
    matchItems (Item.gopen i :: rest) cap inp pos
      = matchItems rest (cap.set (2 * i) (some pos)) inp pos := rfl

theorem matchItems_gclose (i : Nat) (rest : List Item) (cap : Caps) (inp : List Char)
    (pos : Nat) :
    matchItems (Item.gclose i :: rest) cap inp pos
      = matchItems rest (cap.set (2 * i + 1) (some pos)) inp pos := rfl

theorem matchItems_nil (cap : Caps) (inp : List Char) (pos : Nat) :
    matchItems [] cap inp pos = some cap := rfl

theorem matchItems_lits (l : List Char) (rest : List Item) (cap : Caps) (inp : List Char)
    (pos : Nat) :
    matchItems (l.map Item.lit ++ rest) cap (l ++ inp) pos
      = matchItems rest cap inp (pos + l.length) := by
  induction l generalizing pos with
  | nil => simp
  | cons a l ih =>
    rw [List.map_cons, List.cons_append, List.cons_append, matchItems_lit_cons, if_pos rfl, ih,
      List.length_cons, Nat.add_assoc, Nat.add_comm 1]

theorem matchItems_lits_some (l : List Char) (rest : List Item) (cap : Caps) (inp : List Char)
    (pos : Nat) (r : Caps) (h : matchItems (l.map Item.lit ++ rest) cap inp pos = some r) :
    ∃ tl, inp = l ++ tl := by
  induction l generalizing inp pos with
  | nil => exact ⟨inp, rfl⟩
  | cons a l ih =>
    cases inp with
    | nil => rw [List.map_cons, List.cons_append, matchItems_lit_nil] at h; cases h
    | cons c cs =>
      rw [List.map_cons, List.cons_append, matchItems_lit_cons] at h
      by_cases hc : c = a
      · rw [if_pos hc] at h
        obtain ⟨tl, htl⟩ := ih _ _ h
        exact ⟨tl, by rw [hc, htl]; rfl⟩
      · rw [if_neg hc] at h; cases h

theorem starLoop_lazy_of_some (cls : CharClass) (k : List Char → Nat → Option Caps)
    (inp : List Char) (pos : Nat) (r : Caps) (h : k inp pos = some r) :
    starLoop false cls k inp pos = some r := by
  cases inp with
  | nil => rw [starLoop_nil]; exact h
  | cons c cs =>
    rw [starLoop_cons_lazy, h]
    split <;> rfl

theorem starLoop_lazy_skip (cls : CharClass) (k : List Char → Nat → Option Caps)
    (q t : List Char) (pos : Nat) (hq : ∀ c ∈ q, cls.test c = true)
    (hk : ∀ a b, q = a ++ b → b ≠ [] → k (b ++ t) (pos + a.length) = none) :
    starLoop false cls k (q ++ t) pos = starLoop false cls k t (pos + q.length) := by
  induction q generalizing pos with
  | nil => rfl
  | cons c q ih =>
    have h1 : k (c :: (q ++ t)) pos = none := hk [] (c :: q) rfl (by simp)
    have h2 : cls.test c = true := hq c (by simp)
    rw [List.cons_append, starLoop_cons_lazy, if_pos h2, h1]
    show starLoop false cls k (q ++ t) (pos + 1) = _
    rw [ih (pos + 1) (fun c hc => hq c (by simp [hc]))]
    · rw [List.length_cons, Nat.add_assoc, Nat.add_comm 1]
    · intro a b hab hb
      have := hk (c :: a) b (by rw [hab]; rfl) hb
      rw [List.length_cons, ← Nat.add_assoc, Nat.add_right_comm] at this
      exact this

theorem starLoop_greedy_all (cls : CharClass) (k : List Char → Nat → Option Caps)
    (m : List Char) (pos : Nat) (r : Caps) (hm : ∀ c ∈ m, cls.test c = true)
    (hk : k [] (pos + m.length) = some r) :
    starLoop true cls k m pos = some r := by
  induction m generalizing pos with
  | nil => exact hk
  | cons c m ih =>
    have h2 : cls.test c = true := hm c (by simp)
    have := ih (pos + 1) (fun c hc => hm c (by simp [hc]))
      (by rw [List.length_cons, ← Nat.add_assoc, Nat.add_right_comm] at hk; exact hk)
    rw [starLoop_cons_greedy, if_pos h2, this]

theorem starLoop_stop (g : Bool) (cls : CharClass) (k : List Char → Nat → Option Caps)
    (c : Char) (cs : List Char) (pos : Nat) (hc : cls.test c = false) :
    starLoop g cls k (c :: cs) pos = k (c :: cs) pos := by
  cases g
  · rw [starLoop_cons_lazy, hc]; rfl
  · rw [starLoop_cons_greedy, hc]; rfl



theorem chat_match (c : Char) (q : List Char) (d : Char) (m : List Char)
    (hp0 : isReSpace c = false) (hpn : ∀ x ∈ c :: q, x ≠ '\n')
    (hpc : ∀ a b x, c :: q = a ++ ':' :: x :: b → isReSpace x = false)
    (hm0 : isReSpace d = false) (hmn : ∀ x ∈ d :: m, x ≠ '\n') :
    matchItems chatPattern.prog (List.replicate 6 none)
      ("[CHAT] ".data ++ (c :: q) ++ ": ".data ++ (d :: m)) 0
      = some [some 0, some (10 + q.length + (m.length + 1)), some 7, some (8 + q.length),
          some (10 + q.length), some (10 + q.length + (m.length + 1))] := by
  simp only [Regexp.prog, chatPattern, litStr, List.map, List.cons_append, List.nil_append,
    matchItems_gopen, matchItems_lit_cons, if_true, List.append_assoc]
  rw [matchItems_plus_cons]
  simp [CharClass.test, isReSpace]
  rw [starLoop_stop _ _ _ _ _ _ (by simpa [CharClass.test] using hp0)]
  have hc : CharClass.dot.test c = true := by
    simpa [CharClass.test] using hpn c (by simp)
  have hd : CharClass.dot.test d = true := by
    simpa [CharClass.test] using hmn d (by simp)
  simp only [matchItems_gopen, matchItems_plus_cons, hc, if_true]
  rw [starLoop_lazy_skip]
  · apply starLoop_lazy_of_some
    simp only [matchItems_gclose, matchItems_lit_cons, if_true, matchItems_plus_cons]
    simp only [CharClass.test, isReSpace, matchItems_gopen]
    simp
    rw [starLoop_stop _ _ _ _ _ _ (by simpa [CharClass.test] using hm0)]
    simp only [matchItems_gopen, matchItems_plus_cons, hd, if_true]
    rw [starLoop_greedy_all _ _ _ _ _ (fun x hx => by
      simpa [CharClass.test] using hmn x (by simp [hx]))]
    simp [matchItems_gclose, matchItems_nil]
    omega
  · intro x hx
    simpa [CharClass.test] using hpn x (by simp [hx])
  · intro a b hab hb
    cases b with
    | nil => exact absurd rfl hb
    | cons y b =>
      simp only [matchItems_gclose, List.cons_append, matchItems_lit_cons]
      by_cases hy : y = ':'
      · subst hy
        rw [if_pos rfl]
        cases b with
        | nil =>
          simp [matchItems_plus_cons, CharClass.test, isReSpace]
        | cons z b =>
          have hz := hpc (c :: a) b z (by rw [hab]; simp)
          simp [matchItems_plus_cons, CharClass.test, hz]
      · rw [if_neg hy]


theorem findFrom_cons_some (re : Regexp) (c : Char) (cs : List Char) (pos : Nat) (r : Caps)
    (h : matchItems re.prog (List.replicate (2 * (re.numSubexp + 1)) none) (c :: cs) pos
      = some r) :
    findFrom re (c :: cs) pos = some r := by
  simp [findFrom, h]

theorem submatch_eq (s : List Char) (cap : Caps) (i b e : Nat) (pre mid suf : List Char)
    (hb : cap.getD (2 * i) none = some b) (he : cap.getD (2 * i + 1) none = some e)
    (hs : s = pre ++ mid ++ suf) (hpre : pre.length = b) (hmid : b + mid.length = e) :
    submatch s cap i = ⟨mid⟩ := by
  simp only [submatch, hb, he]
  subst hs hpre hmid
  simp


theorem borderFree_spec (lit : List Char) (h : borderFree lit = true) (n : Nat) (h1 : 1 ≤ n)
    (h2 : n ≤ lit.length) : (' ' :: lit).take n ≠ lit.drop (lit.length - n) := by
  have := (List.all_eq_true.mp h) (n - 1) (by simp; omega)
  have hn : n - 1 + 1 = n := by omega
  rw [hn] at this
  simpa using this

theorem spaceLits_some (lit : List Char) (rest : List Item) (cap : Caps) (x : List Char)
    (pos : Nat) (r : Caps)
    (h : starLoop true .space (fun i p => matchItems (lit.map Item.lit ++ rest) cap i p) x pos
      = some r) :
    ∃ u tl, x = u ++ lit ++ tl ∧ ∀ c ∈ u, isReSpace c = true := by
  induction x generalizing pos r with
  | nil =>
    rw [starLoop_nil] at h
    obtain ⟨tl, htl⟩ := matchItems_lits_some _ _ _ _ _ _ h
    exact ⟨[], tl, by simpa using htl, by simp⟩
  | cons c cs ih =>
    rw [starLoop_cons_greedy] at h
    by_cases hc : CharClass.space.test c = true
    · rw [if_pos hc] at h
      cases hs : starLoop true .space
          (fun i p => matchItems (lit.map Item.lit ++ rest) cap i p) cs (pos + 1) with
      | some r2 =>
        obtain ⟨u, tl, hu, hws⟩ := ih _ _ hs
        refine ⟨c :: u, tl, by rw [hu]; simp, ?_⟩
        intro y hy
        rcases List.mem_cons.mp hy with rfl | hy
        · exact hc
        · exact hws y hy
      | none =>
        rw [hs] at h
        obtain ⟨tl, htl⟩ := matchItems_lits_some _ _ _ _ _ _ h
        exact ⟨[], tl, by simpa using htl, by simp⟩
    · rw [if_neg hc] at h
      obtain ⟨tl, htl⟩ := matchItems_lits_some _ _ _ _ _ _ h
      exact ⟨[], tl, by simpa using htl, by simp⟩

/-- If a nonempty `b` followed by a blank and `lit` reads as blanks, `lit` and a
rest, then `b` ends in a blank character or contains a blank character
followed by `lit`. -/
theorem overlap_cases (lit : List Char) (hb : borderFree lit = true) (b y tl : List Char)
    (hne : b ≠ []) (hy : y ≠ []) (hws : ∀ c ∈ y, isReSpace c = true)
    (h : b ++ ' ' :: lit = y ++ lit ++ tl) :
    (∃ b0 z, b = b0 ++ [z] ∧ isReSpace z = true) ∨
    (∃ a0 w b1, b = a0 ++ w :: (lit ++ b1) ∧ isReSpace w = true) := by
  have hylast : ∃ y0 w, y = y0 ++ [w] := by
    rcases List.eq_nil_or_concat y with h0 | ⟨y0, w, h0⟩
    · exact absurd h0 hy
    · exact ⟨y0, w, by simpa using h0⟩
  obtain ⟨y0, w, rfl⟩ := hylast
  have hw : isReSpace w = true := hws w (by simp)
  rcases List.append_eq_append_iff.mp h with ⟨a1, h1, h2⟩ | ⟨c1, h1, h2⟩
  · -- `y ++ lit = b ++ a1` and `' ' :: lit = a1 ++ tl`
    have hlen : a1.length ≤ lit.length + 1 := by
      have := congrArg List.length h2
      simp at this; omega
    have ha1 : a1 = (' ' :: lit).take a1.length := by
      rw [h2]; simp
    by_cases hfull : a1.length = lit.length + 1
    · left
      have htl : tl = [] := by
        have := congrArg List.length h2
        simp at this
        exact List.length_eq_zero.mp (by omega)
      subst htl
      rw [List.append_nil] at h2
      rw [← h2] at h1
      have h3 : y0 ++ [w] ++ lit = (b ++ [' ']) ++ lit := by rw [h1]; simp
      have h4 := List.append_cancel_right h3
      rcases List.eq_nil_or_concat b with h0 | ⟨b0, z, h0⟩
      · exact absurd h0 hne
      · refine ⟨b0, z, by simpa using h0, ?_⟩
        apply hws
        rw [h4, h0]; simp
    · by_cases hzero : a1.length = 0
      · right
        have : a1 = [] := List.length_eq_zero.mp hzero
        subst this
        rw [List.append_nil] at h1
        exact ⟨y0, w, [], by rw [← h1]; simp, hw⟩
      · exfalso
        have hn1 : 1 ≤ a1.length := by omega
        have hn2 : a1.length ≤ lit.length := by omega
        apply borderFree_spec lit hb a1.length hn1 hn2
        rw [← ha1]
        rcases List.append_eq_append_iff.mp h1 with ⟨a2, h5, h6⟩ | ⟨c2, h5, h6⟩
        · -- `b = y ++ a2` and `lit = a2 ++ a1`
          rw [h6]; simp
        · -- `y = b ++ c2` and `a1 = c2 ++ lit`
          have hc2 : c2 = [] := by
            have := congrArg List.length h6
            simp at this
            exact List.length_eq_zero.mp (by omega)
          subst hc2
          rw [List.nil_append] at h6
          rw [h6]; simp
  · right
    exact ⟨y0, w, c1, by rw [h1]; simp, hw⟩



/-- The items of `(.+?)\s+lit`. -/
theorem tail_match (lit : List Char) (hb : borderFree lit = true) (l0 : Char) (l1 : List Char)
    (hlit : lit = l0 :: l1) (hl0 : isReSpace l0 = false)
    (c : Char) (q : List Char) (hpn : ∀ x ∈ c :: q, x ≠ '\n')
    (hend : ∀ z, (c :: q).getLast? = some z → isReSpace z = false)
    (hcont : ∀ a b w, c :: q = a ++ w :: (lit ++ b) → isReSpace w = false) :
    ∃ e, matchItems (Item.gopen 0 :: (([Item.gopen 1, Item.plus false .dot, Item.gclose 1,
        Item.plus true .space] ++ lit.map Item.lit) ++ [Item.gclose 0]))
      (List.replicate 4 none) ((c :: q) ++ ' ' :: lit) 0
      = some [some 0, some e, some 0, some (q.length + 1)] := by
  have hc : CharClass.dot.test c = true := by
    simpa [CharClass.test] using hpn c (by simp)
  simp only [List.cons_append, List.nil_append, matchItems_gopen, matchItems_plus_cons, hc,
    if_true, List.append_assoc]
  rw [starLoop_lazy_skip]
  · refine ⟨q.length + 2 + lit.length, ?_⟩
    apply starLoop_lazy_of_some
    simp only [matchItems_gclose, matchItems_plus_cons]
    have hsp : CharClass.space.test ' ' = true := by decide
    rw [if_pos hsp]
    subst hlit
    rw [starLoop_stop _ _ _ _ _ _ (by simpa [CharClass.test] using hl0)]
    have := matchItems_lits (l0 :: l1) [Item.gclose 0]
      ((List.replicate 4 (none : Option Nat)).set (2 * 0) (some 0) |>.set (2 * 1) (some 0)
        |>.set (2 * 1 + 1) (some (0 + 1 + q.length))) [] (0 + 1 + q.length + 1)
    rw [List.append_nil] at this
    simp only [this, matchItems_gclose, matchItems_nil]
    simp
    omega
  · intro x hx
    simpa [CharClass.test] using hpn x (by simp [hx])
  · intro a b hab hbne
    cases hk : matchItems (Item.gclose 1 :: Item.plus true CharClass.space ::
        (lit.map Item.lit ++ [Item.gclose 0]))
        ((List.replicate 4 (none : Option Nat)).set (2 * 0) (some 0) |>.set (2 * 1) (some 0))
        (b ++ ' ' :: lit) (0 + 1 + a.length) with
    | none => rfl
    | some r =>
      exfalso
      cases b with
      | nil => exact hbne rfl
      | cons y b =>
        rw [matchItems_gclose, List.cons_append, matchItems_plus_cons] at hk
        by_cases hy : CharClass.space.test y = true
        · rw [if_pos hy] at hk
          obtain ⟨u, tl, hu, hws⟩ := spaceLits_some _ _ _ _ _ _ hk
          have hov := overlap_cases lit hb (y :: b) (y :: u) tl (by simp) (by simp)
            (by
              intro z hz
              rcases List.mem_cons.mp hz with rfl | hz
              · exact hy
              · exact hws z hz)
            (by rw [List.cons_append, hu]; simp)
          rcases hov with ⟨b0, z, hb0, hz⟩ | ⟨a0, w, b1, hb1, hw⟩
          · have hlast : (c :: q).getLast? = some z := by
              rw [hab, hb0]
              have : c :: (a ++ (b0 ++ [z])) = (c :: (a ++ b0)) ++ [z] := by simp
              rw [this, List.getLast?_concat]
            rw [hend z hlast] at hz
            cases hz
          · have := hcont (c :: (a ++ a0)) b1 w (by rw [hab, hb1]; simp)
            rw [this] at hw
            cases hw
        · rw [if_neg hy] at hk
          cases hk

theorem findString_none_iff (re : Regexp) (s : String) :
    re.FindStringSubmatch s = none ↔ re.MatchString s = false := by
  unfold Regexp.FindStringSubmatch Regexp.MatchString
  cases findFrom re s.data 0 <;> simp



theorem tail_find (re : Regexp) (lit : String) (hre : re.items = [Item.gopen 1,
      Item.plus false .dot, Item.gclose 1, Item.plus true .space] ++ litStr lit)
    (hsub : re.numSubexp = 1)
    (hb : borderFree lit.data = true) (l0 : Char) (l1 : List Char)
    (hlit : lit.data = l0 :: l1) (hl0 : isReSpace l0 = false)
    (p : String) (hp : p ≠ "") (hpn : '\n' ∉ p.data)
    (hend : ∀ z, p.data.getLast? = some z → isReSpace z = false)
    (hcont : ∀ a b w, p.data = a ++ w :: (lit.data ++ b) → isReSpace w = false) :
    ∃ whole, re.FindStringSubmatch (p ++ " " ++ lit) = some [whole, p] := by
  obtain ⟨pd⟩ := p
  cases pd with
  | nil => exact absurd rfl hp
  | cons c q =>
  obtain ⟨e, he⟩ := tail_match lit.data hb l0 l1 hlit hl0 c q (fun x hx h => hpn (h ▸ hx)) hend
    hcont
  have hline : ((⟨c :: q⟩ : String) ++ " " ++ lit).data = (c :: q) ++ ' ' :: lit.data := by
    simp [String.data_append]
  have hfind : findFrom re ((⟨c :: q⟩ : String) ++ " " ++ lit).data 0
      = some [some 0, some e, some 0, some (q.length + 1)] := by
    rw [hline]
    apply findFrom_cons_some
    rw [Regexp.prog, hre, hsub]
    exact he
  have h1 := submatch_eq ((⟨c :: q⟩ : String) ++ " " ++ lit).data
    [some 0, some e, some 0, some (q.length + 1)] 1 0 (q.length + 1) [] (c :: q)
    (' ' :: lit.data) rfl rfl (by rw [hline]; simp) rfl (by simp)
  refine ⟨submatch ((⟨c :: q⟩ : String) ++ " " ++ lit).data
    [some 0, some e, some 0, some (q.length + 1)] 0, ?_⟩
  rw [Regexp.FindStringSubmatch, hfind, hsub]
  show some [submatch _ _ 0, submatch _ _ 1] = _
  rw [h1]





theorem find_cases (re : Regexp) (s : String) :
    (re.MatchString s = false ∧ re.FindStringSubmatch s = none) ∨
    (re.MatchString s = true ∧ ∃ m, re.FindStringSubmatch s = some m ∧
      m.length = 1 + re.numSubexp) := by
  unfold Regexp.FindStringSubmatch Regexp.MatchString
  cases findFrom re s.data 0 with
  | none => left; simp
  | some cap => right; simp

theorem one_group (re : Regexp) (s : String) (m : List String) (hn : re.numSubexp = 1)
    (hm : re.FindStringSubmatch s = some m) (hl : m.length = 1 + re.numSubexp) :
    ∃ a b, m = [a, b] := by
  rw [hn] at hl
  match m, hl with
  | [a, b], _ => exact ⟨a, b, rfl⟩


theorem parseLine_ok (line : String) : ∃ events, parseLine line = .ok events := by
  unfold parseLine
  rcases find_cases chatPattern line with ⟨_, hF1⟩ | ⟨_, m, hF1, hl⟩
  · rcases find_cases joinPattern line with ⟨_, hF2⟩ | ⟨_, m, hF2, hl⟩
    · rcases find_cases leavePattern line with ⟨_, hF3⟩ | ⟨_, m, hF3, hl⟩
      · rcases find_cases researchPattern line with ⟨_, hF4⟩ | ⟨_, m, hF4, hl⟩
        · cases hM5 : rocketPattern.MatchString line
          · rcases find_cases savePattern line with ⟨_, hF6⟩ | ⟨_, m, hF6, hl⟩
            · exact ⟨[], by simp [hF1, hF2, hF3, hF4, hF6, hM5]; rfl⟩
            · obtain ⟨a, b, rfl⟩ := one_group _ _ _ rfl hF6 hl
              exact ⟨_, by simp [hF1, hF2, hF3, hF4, hF6, hM5]; rfl⟩
          · exact ⟨_, by simp [hF1, hF2, hF3, hF4, hM5]; rfl⟩
        · obtain ⟨a, b, rfl⟩ := one_group _ _ _ rfl hF4 hl
          exact ⟨_, by simp [hF1, hF2, hF3, hF4]; rfl⟩
      · obtain ⟨a, b, rfl⟩ := one_group _ _ _ rfl hF3 hl
        exact ⟨_, by simp [hF1, hF2, hF3]; rfl⟩
    · obtain ⟨a, b, rfl⟩ := one_group _ _ _ rfl hF2 hl
      exact ⟨_, by simp [hF1, hF2]; rfl⟩
  · have hl3 : m.length = 3 := hl
    match m, hl3 with
    | [a, b, c], _ => exact ⟨_, by simp [hF1]; rfl⟩

/-! ## The line classifier -/

/-- Claim C1: `parseLine` is a first-match-wins decision list.  For every line
(newline-free or not) the call returns normally, it emits at most one event,
the body of the event is the kind of the first pattern, in the order chat,
join, leave, research, rocket, save, that matches the line, and no event is
emitted exactly when none of the six patterns matches. -/
theorem parseLine_first_match (line : String) :
    ∃ events, parseLine line = .ok events ∧ events.length ≤ 1 ∧
      events.map LogEvent.body
        = ((patternOrder.find? fun p => p.2.MatchString line).map Prod.fst).toList ∧
      (events = [] ↔ ∀ p ∈ patternOrder, p.2.MatchString line = false) := by
  unfold parseLine patternOrder
  rcases find_cases chatPattern line with ⟨hM1, hF1⟩ | ⟨hM1, m, hF1, hl⟩
  · rcases find_cases joinPattern line with ⟨hM2, hF2⟩ | ⟨hM2, m, hF2, hl⟩
    · rcases find_cases leavePattern line with ⟨hM3, hF3⟩ | ⟨hM3, m, hF3, hl⟩
      · rcases find_cases researchPattern line with ⟨hM4, hF4⟩ | ⟨hM4, m, hF4, hl⟩
        · cases hM5 : rocketPattern.MatchString line
          · rcases find_cases savePattern line with ⟨hM6, hF6⟩ | ⟨hM6, m, hF6, hl⟩
            · simp [hF1, hF2, hF3, hF4, hF6, hM1, hM2, hM3, hM4, hM5, hM6, List.find?]
              rfl
            · obtain ⟨a, b, rfl⟩ := one_group _ _ _ rfl hF6 hl
              simp [hF1, hF2, hF3, hF4, hF6, hM1, hM2, hM3, hM4, hM5, hM6, List.find?, index,
                logEvent, pure, Except.pure, bind, Except.bind]
          · simp [hF1, hF2, hF3, hF4, hM1, hM2, hM3, hM4, hM5, List.find?, logEvent, pure,
              Except.pure]
        · obtain ⟨a, b, rfl⟩ := one_group _ _ _ rfl hF4 hl
          simp [hF1, hF2, hF3, hF4, hM1, hM2, hM3, hM4, List.find?, index,
            logEvent, pure, Except.pure, bind, Except.bind]
      · obtain ⟨a, b, rfl⟩ := one_group _ _ _ rfl hF3 hl
        simp [hF1, hF2, hF3, hM1, hM2, hM3, List.find?, index,
          logEvent, pure, Except.pure, bind, Except.bind]
    · obtain ⟨a, b, rfl⟩ := one_group _ _ _ rfl hF2 hl
      simp [hF1, hF2, hM1, hM2, List.find?, index,
        logEvent, pure, Except.pure, bind, Except.bind]
  · have hl3 : m.length = 3 := hl
    match m, hl3 with
    | [a, b, c], _ =>
      simp [hF1, hM1, List.find?, index, logEvent, pure, Except.pure, bind, Except.bind]

/-- Claim C1, the instance of the claim: the line `[CHAT] Alice: Bob joined the
game`, which the join pattern matches too, yields one event, of kind chat. -/
theorem parseLine_first_match_witness :
    joinPattern.MatchString "[CHAT] Alice: Bob joined the game" = true ∧
    parseLine "[CHAT] Alice: Bob joined the game"
      = .ok [{ body := "chat", attrs := [("player", "Alice"), ("message", "Bob joined the game")] }] ∧
    ∃ events, parseLine "[CHAT] Alice: Bob joined the game" = .ok events ∧ events.length ≤ 1 ∧
      events.map LogEvent.body
        = ((patternOrder.find? fun p =>
            p.2.MatchString "[CHAT] Alice: Bob joined the game").map Prod.fst).toList ∧
      (events = [] ↔
        ∀ p ∈ patternOrder, p.2.MatchString "[CHAT] Alice: Bob joined the game" = false) :=
  ⟨by decide, by rfl, parseLine_first_match "[CHAT] Alice: Bob joined the game"⟩

/-- Claim C2: for a non-empty, newline-free player `p` that does not begin with
white space and contains no colon followed by white space, and a non-empty,
newline-free message `m` that does not begin with white space, the line
`[CHAT] p: m` yields one chat event with player `p` and message `m`, colons in
`m` included.  White space is the class `\s` of the pattern. -/
theorem parseLine_chat_extracts (p m : String)
    (hp : p ≠ "") (hm : m ≠ "") (hpn : '\n' ∉ p.data) (hmn : '\n' ∉ m.data)
    (hp0 : ∀ c, p.data.head? = some c → isReSpace c = false)
    (hpc : ∀ a b x, p.data = a ++ ':' :: x :: b → isReSpace x = false)
    (hm0 : ∀ c, m.data.head? = some c → isReSpace c = false) :
    parseLine ("[CHAT] " ++ p ++ ": " ++ m)
      = .ok [{ body := "chat", attrs := [("player", p), ("message", m)] }] := by
  obtain ⟨pd⟩ := p
  obtain ⟨md⟩ := m
  cases pd with
  | nil => exact absurd rfl hp
  | cons c q =>
  cases md with
  | nil => exact absurd rfl hm
  | cons d m =>
  have hmatch := chat_match c q d m (hp0 c rfl) (fun x hx h => hpn (h ▸ hx)) hpc (hm0 d rfl)
    (fun x hx h => hmn (h ▸ hx))
  have hline : ("[CHAT] " ++ (⟨c :: q⟩ : String) ++ ": " ++ ⟨d :: m⟩).data
      = "[CHAT] ".data ++ (c :: q) ++ ": ".data ++ (d :: m) := by
    simp [String.data_append]
  have hfind : findFrom chatPattern ("[CHAT] " ++ (⟨c :: q⟩ : String) ++ ": " ++ ⟨d :: m⟩).data 0
      = some [some 0, some (10 + q.length + (m.length + 1)), some 7, some (8 + q.length),
          some (10 + q.length), some (10 + q.length + (m.length + 1))] := by
    rw [hline]
    exact findFrom_cons_some chatPattern _ _ _ _ hmatch
  have h1 := submatch_eq ("[CHAT] " ++ (⟨c :: q⟩ : String) ++ ": " ++ ⟨d :: m⟩).data
    [some 0, some (10 + q.length + (m.length + 1)), some 7, some (8 + q.length),
      some (10 + q.length), some (10 + q.length + (m.length + 1))]
    1 7 (8 + q.length) "[CHAT] ".data (c :: q) (": ".data ++ (d :: m)) rfl rfl
    (by rw [hline]; simp) rfl (by simp; omega)
  have h2 := submatch_eq ("[CHAT] " ++ (⟨c :: q⟩ : String) ++ ": " ++ ⟨d :: m⟩).data
    [some 0, some (10 + q.length + (m.length + 1)), some 7, some (8 + q.length),
      some (10 + q.length), some (10 + q.length + (m.length + 1))]
    2 (10 + q.length) (10 + q.length + (m.length + 1))
    ("[CHAT] ".data ++ (c :: q) ++ ": ".data) (d :: m) [] rfl rfl
    (by rw [hline]; simp) (by simp; omega) (by simp)
  have hF : chatPattern.FindStringSubmatch ("[CHAT] " ++ (⟨c :: q⟩ : String) ++ ": " ++ ⟨d :: m⟩)
      = some [submatch ("[CHAT] " ++ (⟨c :: q⟩ : String) ++ ": " ++ ⟨d :: m⟩).data
          [some 0, some (10 + q.length + (m.length + 1)), some 7, some (8 + q.length),
            some (10 + q.length), some (10 + q.length + (m.length + 1))] 0,
        ⟨c :: q⟩, ⟨d :: m⟩] := by
    rw [Regexp.FindStringSubmatch, hfind]
    show some [submatch _ _ 0, submatch _ _ 1, submatch _ _ 2] = _
    rw [h1, h2]
  rw [parseLine, hF]
  rfl



/-- Claim C2, the instance of the claim: `[CHAT] Alice: hello: world`. -/
theorem parseLine_chat_witness :
    parseLine ("[CHAT] " ++ "Alice" ++ ": " ++ "hello: world")
      = .ok [{ body := "chat", attrs := [("player", "Alice"), ("message", "hello: world")] }] :=
  parseLine_chat_extracts "Alice" "hello: world" (by decide) (by decide) (by decide) (by decide)
    (by decide) (by
      intro a b x h
      have hmem : ':' ∈ "Alice".data := by rw [h]; simp
      exact absurd hmem (by decide)) (by decide)

/-- Claim C10: for a non-empty, newline-free player `p` that does not end in
white space and does not contain white space followed by `joined the game`,
the line `p joined the game`, if the chat pattern does not match it, yields one
join event whose only field is the player `p`; and the same for `left the
game` and a leave event, if neither the chat nor the join pattern matches the
line.  White space is the class `\s` of the patterns. -/
theorem parseLine_join_leave (p : String) (hp : p ≠ "") (hpn : '\n' ∉ p.data)
    (hend : ∀ z, p.data.getLast? = some z → isReSpace z = false) :
    ((∀ a b w, p.data = a ++ w :: ("joined the game".data ++ b) → isReSpace w = false) →
      chatPattern.MatchString (p ++ " joined the game") = false →
      parseLine (p ++ " joined the game") = .ok [{ body := "join", attrs := [("player", p)] }]) ∧
    ((∀ a b w, p.data = a ++ w :: ("left the game".data ++ b) → isReSpace w = false) →
      chatPattern.MatchString (p ++ " left the game") = false →
      joinPattern.MatchString (p ++ " left the game") = false →
      parseLine (p ++ " left the game") = .ok [{ body := "leave", attrs := [("player", p)] }]) := by
  constructor
  · intro hcont hchat
    obtain ⟨whole, hF⟩ := tail_find joinPattern "joined the game" rfl rfl (by decide) 'j'
      "oined the game".data rfl (by decide) p hp hpn hend hcont
    have hs : p ++ " joined the game" = p ++ " " ++ "joined the game" := by
      rw [String.append_assoc]; rfl
    rw [hs] at hchat ⊢
    rw [parseLine, (findString_none_iff _ _).mpr hchat]
    simp only [hF]
    rfl
  · intro hcont hchat hjoin
    obtain ⟨whole, hF⟩ := tail_find leavePattern "left the game" rfl rfl (by decide) 'l'
      "eft the game".data rfl (by decide) p hp hpn hend hcont
    have hs : p ++ " left the game" = p ++ " " ++ "left the game" := by
      rw [String.append_assoc]; rfl
    rw [hs] at hchat hjoin ⊢
    rw [parseLine, (findString_none_iff _ _).mpr hchat]
    simp only [(findString_none_iff _ _).mpr hjoin, hF]
    rfl



/-- Claim C10, the instance of the claim: `Bob joined the game` and `Bob left the
game`. -/
theorem parseLine_join_leave_witness :
    parseLine ("Bob" ++ " joined the game") = .ok [{ body := "join", attrs := [("player", "Bob")] }] ∧
    parseLine ("Bob" ++ " left the game") = .ok [{ body := "leave", attrs := [("player", "Bob")] }] :=
  ⟨(parseLine_join_leave "Bob" (by decide) (by decide) (by decide)).1
      (by
        intro a b w h
        have := congrArg List.length h
        simp at this
        omega) (by decide),
    (parseLine_join_leave "Bob" (by decide) (by decide) (by decide)).2
      (by
        intro a b w h
        have := congrArg List.length h
        simp at this
        omega) (by decide) (by decide)⟩

/-! ## The tailer -/


theorem run_zero_step (t : LogTailer) (a : Attempt) (rest : List Attempt)
    (ha : a.zeroCandidates) :
    Run t (a :: rest) =
      if a.doneInBackoff then
        ([.listPods, .logError (noPodsError t), .ctxDone],
          .returned)
      else (failedDiscovery t ++ (Run t rest).1, (Run t rest).2) := by
  obtain ⟨h1, h2, h3⟩ := ha
  simp [Run, tail, findPod, h1, h2, h3, failedDiscovery, noPodsError]






theorem quiet_append_clean (l1 l2 : List TailEffect) (h : TailEffect.ctxDone ∉ l1) :
    quietAfterDone (l1 ++ l2) = quietAfterDone l2 := by
  induction l1 with
  | nil => rfl
  | cons e l1 ih =>
    have he : e ≠ TailEffect.ctxDone := fun h2 => h (by simp [h2])
    rw [List.cons_append, quietAfterDone, if_neg he]
    exact ih (fun h2 => h (by simp [h2]))

theorem quiet_of_all (l : List TailEffect) (h : ∀ e ∈ l, e = TailEffect.ctxDone) :
    quietAfterDone l = true := by
  cases l with
  | nil => rfl
  | cons e l =>
    rw [quietAfterDone, if_pos (h e (by simp))]
    simp only [List.all_eq_true, decide_eq_true_eq]
    exact fun x hx => h x (by simp [hx])

theorem quiet_split (l : List TailEffect) (h : quietAfterDone l = true)
    (pre suf : List TailEffect) (hl : l = pre ++ TailEffect.ctxDone :: suf) :
    ∀ e ∈ suf, e = TailEffect.ctxDone := by
  induction pre generalizing l with
  | nil =>
    subst hl
    simp only [List.nil_append, quietAfterDone, if_true, List.all_eq_true,
      decide_eq_true_eq] at h
    exact h
  | cons x pre ih =>
    subst hl
    rw [List.cons_append, quietAfterDone] at h
    by_cases hx : x = TailEffect.ctxDone
    · rw [if_pos hx] at h
      simp only [List.all_eq_true, decide_eq_true_eq] at h
      exact fun e he => h e (by simp [he])
    · rw [if_neg hx] at h
      exact ih _ h rfl

theorem doneForGood_split (l1 l2 : List Bool) (h : doneForGood (l1 ++ true :: l2) = true) :
    ∀ x ∈ l2, x = true := by
  induction l1 with
  | nil =>
    simp only [List.nil_append, doneForGood, if_true, List.all_eq_true] at h
    exact fun x hx => by simpa using h x hx
  | cons b l1 ih =>
    rw [List.cons_append, doneForGood] at h
    cases b with
    | true =>
      simp only [if_true, List.all_eq_true] at h
      exact fun x hx => by simpa using h x (by simp [hx])
    | false => exact ih (by simpa using h)

theorem doneForGood_tail (l1 l2 : List Bool) (h : doneForGood (l1 ++ l2) = true) :
    doneForGood l2 = true := by
  induction l1 with
  | nil => exact h
  | cons b l1 ih =>
    rw [List.cons_append, doneForGood] at h
    cases b with
    | true =>
      simp only [if_true, List.all_eq_true] at h
      have hall : ∀ x ∈ l2, x = true := fun x hx => by simpa using h x (by simp [hx])
      clear ih h
      induction l2 with
      | nil => rfl
      | cons c l2 ih2 =>
        rw [doneForGood, if_pos (hall c (by simp))]
        simp only [List.all_eq_true]
        exact fun x hx => by simpa using hall x (by simp [hx])
    | false => exact ih (by simpa using h)

theorem monotone_tail (a : Attempt) (rest : List Attempt) (h : ContextMonotone (a :: rest)) :
    ContextMonotone rest := by
  unfold ContextMonotone at h ⊢
  rw [List.flatMap_cons] at h
  exact doneForGood_tail _ _ h

theorem monotone_seen (a : Attempt) (rest : List Attempt) (h : ContextMonotone (a :: rest))
    (hs : a.seenInTail) :
    a.doneAfterTail = true ∧ ∀ b ∈ rest, b.doneAtFind = true ∧ b.doneAfterTail = true := by
  unfold ContextMonotone at h
  rw [List.flatMap_cons] at h
  have key : ∃ l1 l2, a.observations = l1 ++ true :: (l2 ++ [a.doneAfterTail, a.doneInBackoff]) := by
    rcases hs with h1 | h1 | ⟨lines, scanErr, h1, l, hl, h2⟩
    · exact ⟨[], a.doneAtStream :: a.stream.checks, by simp [Attempt.observations, h1]⟩
    · exact ⟨[a.doneAtFind], a.stream.checks, by simp [Attempt.observations, h1]⟩
    · obtain ⟨s1, s2, hsplit⟩ := List.append_of_mem hl
      refine ⟨[a.doneAtFind, a.doneAtStream] ++ s1.map Prod.snd, s2.map Prod.snd, ?_⟩
      simp [Attempt.observations, StreamReply.checks, h1, hsplit, h2]
  obtain ⟨l1, l2, hobs⟩ := key
  rw [hobs] at h
  have hall := doneForGood_split l1 ((l2 ++ [a.doneAfterTail, a.doneInBackoff]) ++
    rest.flatMap Attempt.observations) (by simpa using h)
  refine ⟨hall _ (by simp), ?_⟩
  intro b hb
  have hbobs : ∀ x ∈ b.observations, x = true := by
    intro x hx
    apply hall
    simp only [List.mem_append, List.mem_flatMap]
    right
    exact ⟨b, hb, hx⟩
  exact ⟨hbobs _ (by simp [Attempt.observations]), hbobs _ (by simp [Attempt.observations])⟩



theorem scanLoop_spec (lines : List (String × Bool)) :
    ((∃ l ∈ lines, l.2 = true) ∧ (scanLoop lines).2 = .cancelled ∧
      ∃ tr0, (scanLoop lines).1 = tr0 ++ [TailEffect.ctxDone] ∧ TailEffect.ctxDone ∉ tr0) ∨
    ((∀ l ∈ lines, l.2 = false) ∧ (scanLoop lines).2 = .finished ∧
      TailEffect.ctxDone ∉ (scanLoop lines).1) := by
  induction lines with
  | nil => right; simp [scanLoop]
  | cons l lines ih =>
    obtain ⟨line, done⟩ := l
    cases done with
    | true => left; exact ⟨⟨(line, true), by simp, rfl⟩, by simp [scanLoop], [], by simp [scanLoop]⟩
    | false =>
      obtain ⟨events, hev⟩ := parseLine_ok line
      have hclean : TailEffect.ctxDone ∉ events.map TailEffect.emit := by simp
      rcases ih with ⟨⟨l2, hl2, hd⟩, hc, tr0, htr, hno⟩ | ⟨hall, hf, hno⟩
      · left
        refine ⟨⟨l2, by simp [hl2], hd⟩, by simp [scanLoop, hev, hc], ?_⟩
        refine ⟨events.map TailEffect.emit ++ tr0, by simp [scanLoop, hev, htr], ?_⟩
        simp [hno]
      · right
        refine ⟨?_, by simp [scanLoop, hev, hf], by simp [scanLoop, hev, hno]⟩
        intro l3 hl3
        rcases List.mem_cons.mp hl3 with rfl | hl3
        · rfl
        · exact hall l3 hl3

theorem findPod_spec (t : LogTailer) (done : Bool) (reply : PodListReply) :
    (TailEffect.ctxDone ∉ (findPod t done reply).1 ∧ (findPod t done reply).1.length ≤ 1) ∨
    ((findPod t done reply).1 = [TailEffect.ctxDone] ∧ done = true ∧
      ∃ err, (findPod t done reply).2 = .error err) := by
  cases reply <;> cases done <;> simp [findPod]
  rename_i names
  cases names <;> simp

theorem streamLogs_spec (done : Bool) (podName : String) (reply : StreamReply) :
    TailEffect.ctxDone ∉ (streamLogs done podName reply).1 ∨
    ((streamLogs done podName reply).1 = [TailEffect.ctxDone] ∧ done = true ∧
      ∃ err, (streamLogs done podName reply).2 = .error err) := by
  cases reply <;> cases done <;> simp [streamLogs]

theorem streamLogs_ok (done : Bool) (podName : String) (reply : StreamReply)
    (tr : List TailEffect) (lines : List (String × Bool)) (scanErr : Option String)
    (h : streamLogs done podName reply = (tr, .ok (lines, scanErr))) :
    reply = .body lines scanErr ∧ done = false ∧ tr = [.openStream podName] := by
  cases reply <;> cases done <;> simp [streamLogs] at h
  obtain ⟨h1, h2, h3⟩ := h
  exact ⟨by rw [h2, h3], rfl, h1.symm⟩

theorem tail_spec (t : LogTailer) (a : Attempt) :
    TailEffect.ctxDone ∉ (tail t a).1 ∨
    ((∃ tr0, (tail t a).1 = tr0 ++ [TailEffect.ctxDone] ∧ TailEffect.ctxDone ∉ tr0) ∧
      (tail t a).2 ≠ .panicked ∧ a.seenInTail) := by
  unfold tail Attempt.seenInTail
  rcases hfp : findPod t a.doneAtFind a.pods with ⟨tr1, res1⟩
  have hf := findPod_spec t a.doneAtFind a.pods
  rw [hfp] at hf
  simp only at hf
  cases res1 with
  | error err =>
    simp only
    rcases hf with ⟨hf, _⟩ | ⟨hf, hd, _⟩
    · left; exact hf
    · right; exact ⟨⟨[], by rw [hf]; rfl, by simp⟩, by simp, Or.inl hd⟩
  | ok podName =>
    simp only
    have htr1 : TailEffect.ctxDone ∉ tr1 := by
      rcases hf with ⟨hf, _⟩ | ⟨_, _, err, he⟩
      · exact hf
      · cases he
    rcases hsl : streamLogs a.doneAtStream podName a.stream with ⟨tr2, res2⟩
    have hs := streamLogs_spec a.doneAtStream podName a.stream
    rw [hsl] at hs
    simp only at hs
    cases res2 with
    | error err =>
      simp only
      rcases hs with hs | ⟨hs, hd, _⟩
      · left; simp [htr1, hs]
      · right
        refine ⟨⟨tr1 ++ [TailEffect.logTailing t.ns podName], by rw [hs], by simp [htr1]⟩,
          by simp, Or.inr (Or.inl hd)⟩
    | ok body =>
      obtain ⟨lines, scanErr⟩ := body
      obtain ⟨hreply, hd, htr2⟩ := streamLogs_ok _ _ _ _ _ _ hsl
      subst htr2
      simp only
      rcases scanLoop_spec lines with ⟨hex, hc, tr0, htr0, hno⟩ | ⟨hall, hfin, hno⟩
      · right
        simp only [hc]
        refine ⟨⟨tr1 ++ [TailEffect.logTailing t.ns podName] ++ [.openStream podName] ++ tr0,
          by simp [htr0], by simp [htr1, hno]⟩, by simp,
          Or.inr (Or.inr ⟨lines, scanErr, hreply, hex⟩)⟩
      · left
        simp only [hfin]
        simp [htr1, hno]

/-- Once every attempt starts with the context done, `Run` does nothing but
find it done, and returns in the first attempt. -/
theorem run_all_done (t : LogTailer) (script : List Attempt)
    (h : ∀ b ∈ script, b.doneAtFind = true ∧ b.doneAfterTail = true) :
    (∀ e ∈ (Run t script).1, e = TailEffect.ctxDone) ∧
    (script ≠ [] → (Run t script).2 = .returned) := by
  cases script with
  | nil => simp [Run]
  | cons b rest =>
    obtain ⟨h1, h2⟩ := h b (by simp)
    cases hp : b.pods <;> simp [Run, tail, findPod, hp, h1, h2]

theorem run_quiet (t : LogTailer) (script : List Attempt) (hmono : ContextMonotone script) :
    quietAfterDone (Run t script).1 = true := by
  induction script with
  | nil => rfl
  | cons a rest ih =>
    have ihr := ih (monotone_tail a rest hmono)
    rw [Run]
    rcases tail_spec t a with hclean | ⟨⟨tr0, htr, hno⟩, hnp, hseen⟩
    · -- the context is not found done inside `tail`
      rcases hres : tail t a with ⟨tr, res⟩
      rw [hres] at hclean
      cases res with
      | panicked =>
        simp only
        have := quiet_append_clean tr [] hclean
        rw [List.append_nil] at this
        rw [this]; rfl
      | ret err =>
        cases err with
        | none =>
          simp only
          rw [quiet_append_clean _ _ hclean]
          exact ihr
        | some err =>
          simp only
          cases h1 : a.doneAfterTail with
          | true =>
            simp only [if_true]
            rw [quiet_append_clean _ _ hclean]; rfl
          | false =>
            cases h2 : a.doneInBackoff with
            | true =>
              simp only [Bool.false_eq_true, if_false, if_true]
              rw [quiet_append_clean _ _ hclean]; rfl
            | false =>
              simp only [Bool.false_eq_true, if_false]
              rw [List.append_assoc, quiet_append_clean _ _ hclean]
              exact ihr
    · -- the context is found done inside `tail`
      obtain ⟨hafter, hrest⟩ := monotone_seen a rest hmono hseen
      have hall := (run_all_done t rest hrest).1
      rcases hres : tail t a with ⟨tr, res⟩
      rw [hres] at htr hnp
      simp only at htr hnp
      subst htr
      cases res with
      | panicked => exact absurd rfl hnp
      | ret err =>
        cases err with
        | none =>
          simp only
          rw [List.append_assoc, quiet_append_clean _ _ hno]
          exact quiet_of_all _ (by
            intro e he
            rcases List.mem_append.mp he with he | he
            · simpa using he
            · exact hall e he)
        | some err =>
          simp only [hafter, if_true]
          rw [List.append_assoc, quiet_append_clean _ _ hno]
          rfl

theorem run_returns (t : LogTailer) (script : List Attempt) (next : Attempt)
    (hmono : ContextMonotone (script ++ [next])) (hseen : TailEffect.ctxDone ∈ (Run t script).1) :
    (Run t (script ++ [next])).2 = .returned := by
  induction script with
  | nil => simp [Run] at hseen
  | cons a rest ih =>
    rw [List.cons_append] at hmono ⊢
    have ihr := ih (monotone_tail a _ hmono)
    rw [Run] at hseen ⊢
    rcases tail_spec t a with hclean | ⟨⟨tr0, htr, hno⟩, hnp, hs⟩
    · rcases hres : tail t a with ⟨tr, res⟩
      rw [hres] at hclean hseen
      cases res with
      | panicked => exact absurd hseen hclean
      | ret err =>
        cases err with
        | none =>
          simp only at hseen ⊢
          rcases List.mem_append.mp hseen with h | h
          · exact absurd h hclean
          · exact ihr h
        | some err =>
          simp only at hseen ⊢
          cases h1 : a.doneAfterTail with
          | true => simp
          | false =>
            cases h2 : a.doneInBackoff with
            | true => simp
            | false =>
              rw [h1, h2] at hseen
              simp only [Bool.false_eq_true, if_false] at hseen ⊢
              rcases List.mem_append.mp hseen with h | h
              · rcases List.mem_append.mp h with h | h
                · exact absurd h hclean
                · simp at h
              · exact ihr h
    · obtain ⟨hafter, hrest⟩ := monotone_seen a _ hmono hs
      have hret := (run_all_done t (rest ++ [next]) hrest).2 (by simp)
      rcases hres : tail t a with ⟨tr, res⟩
      rw [hres] at hnp
      cases res with
      | panicked => exact absurd rfl hnp
      | ret err =>
        cases err with
        | none => simpa using hret
        | some err => simp [hafter]

theorem tail_cancelled (t : LogTailer) (a : Attempt) (name : String) (names : List String)
    (lines : List (String × Bool)) (scanErr : Option String)
    (hp : a.pods = .items (name :: names)) (hf : a.doneAtFind = false)
    (hd : a.doneAtStream = false) (hs : a.stream = .body lines scanErr)
    (hl : ∃ l ∈ lines, l.2 = true) : (tail t a).2 = .ret none := by
  rcases scanLoop_spec lines with ⟨_, hc, _⟩ | ⟨hall, _, _⟩
  · simp [tail, findPod, streamLogs, hp, hf, hd, hs, hc]
  · obtain ⟨l, hl1, hl2⟩ := hl
    rw [hall l hl1] at hl2
    cases hl2


/-- Claim C7, which the code does not meet: a stream that was opened and ends
at end of stream, without cancellation, is followed at once by the next pod
list request, with no error logged and no backoff; only a stream that ends in
a read error is followed by the log line and the backoff of 5 seconds. -/
theorem run_eof_retries_at_once :
    Run exampleTailer [eofAttempt, emptyAttempt]
      = ([.listPods, .logTailing "factorio" "factorio-0", .openStream "factorio-0",
          .emit ({ body := "join", attrs := [("player", "Bob")] }),
          .listPods, .logError (noPodsError exampleTailer), .backoff 5], .looping) ∧
    Run exampleTailer [readErrorAttempt, emptyAttempt]
      = ([.listPods, .logTailing "factorio" "factorio-0", .openStream "factorio-0",
          .emit ({ body := "join", attrs := [("player", "Bob")] }),
          .logError "unexpected EOF", .backoff 5,
          .listPods, .logError (noPodsError exampleTailer), .backoff 5], .looping) := by
  constructor <;> rfl

/-- Claim C8: cancellation is terminal.  On a script in which the context never
goes back from done to not done, once the code has found the context done
nothing follows in the trace but further findings of the same: no pod list
request, no stream, no event, no log line, no backoff; `Run` returns as soon as
the script offers one more attempt; and when the context is found done while
a stream is scanned, `tail` returns nil. -/
theorem cancellation_is_terminal (t : LogTailer) (script : List Attempt)
    (hmono : ContextMonotone script) :
    (∀ pre suf, (Run t script).1 = pre ++ TailEffect.ctxDone :: suf →
      ∀ e ∈ suf, e = TailEffect.ctxDone) ∧
    (TailEffect.ctxDone ∈ (Run t script).1 →
      ∀ next, ContextMonotone (script ++ [next]) →
        (Run t (script ++ [next])).2 = .returned) ∧
    (∀ a ∈ script, ∀ name names lines scanErr,
      a.pods = .items (name :: names) → a.doneAtFind = false → a.doneAtStream = false →
      a.stream = .body lines scanErr → (∃ l ∈ lines, l.2 = true) →
      (tail t a).2 = .ret none) :=
  ⟨fun pre suf h => quiet_split _ (run_quiet t script hmono) pre suf h,
    fun hseen next hnext => run_returns t script next hnext hseen,
    fun a _ name names lines scanErr hp hf hd hs hl =>
      tail_cancelled t a name names lines scanErr hp hf hd hs hl⟩

/-- Claim C8, an instance: the context is cancelled while the second line of a
stream is scanned; `tail` returns nil, the next call of `findPod` sends no
request, and `Run` returns. -/
theorem cancellation_is_terminal_witness :
    Run exampleTailer [cancelledMidStream, afterCancel]
      = ([.listPods, .logTailing "factorio" "factorio-0", .openStream "factorio-0",
          .emit ({ body := "join", attrs := [("player", "Bob")] }), .ctxDone, .ctxDone, .ctxDone],
          .returned) ∧
    (tail exampleTailer cancelledMidStream).2 = .ret none ∧
    (Run exampleTailer ([cancelledMidStream] ++ [afterCancel])).2 = .returned :=
  ⟨by rfl,
    (cancellation_is_terminal exampleTailer [cancelledMidStream] (by decide)).2.2
      cancelledMidStream (by simp) "factorio-0" []
      [("Bob joined the game", false), ("Bob left the game", true)] none rfl rfl rfl rfl
      ⟨("Bob left the game", true), by simp, rfl⟩,
    (cancellation_is_terminal exampleTailer [cancelledMidStream] (by decide)).2.1
      (by decide) afterCancel (by decide)⟩

/-- Claim C9: when the pod list comes back empty on `n` consecutive attempts and
the context is not cancelled, `Run` does `n` times the same three things, a pod
list request, the error log line and a backoff of 5 seconds, and is still in
its loop: it never opens a stream, logs `n` errors, and every backoff is 5
seconds; if the context is then cancelled during the backoff of one more such
attempt, `Run` returns without another pod list request. -/
theorem run_zero_candidates (t : LogTailer) (n : Nat) (script : List Attempt)
    (hn : script.length = n)
    (h : ∀ a ∈ script, a.zeroCandidates ∧ a.doneInBackoff = false) :
    Run t script = ((List.replicate n (failedDiscovery t)).flatten, .looping) ∧
    (∀ e ∈ (Run t script).1, ∀ pod, e ≠ .openStream pod) ∧
    ((Run t script).1.filter fun e => e matches .logError _).length = n ∧
    (∀ secs, TailEffect.backoff secs ∈ (Run t script).1 → secs = 5) ∧
    (∀ last rest, last.zeroCandidates → last.doneInBackoff = true →
      Run t (script ++ last :: rest) =
        ((List.replicate n (failedDiscovery t)).flatten ++
          [.listPods, .logError (noPodsError t), .ctxDone], .returned)) := by
  induction script generalizing n with
  | nil =>
    subst hn
    refine ⟨rfl, by simp [Run], by simp [Run], by simp [Run], ?_⟩
    intro last rest hl hb
    simp [run_zero_step t last rest hl, hb]
  | cons a script ih =>
    subst hn
    obtain ⟨ha, hb⟩ := h a (by simp)
    obtain ⟨ih1, ih2, ih3, ih5, ih4⟩ :=
      ih script.length rfl (fun b hb => h b (by simp [hb]))
    have hrun : Run t (a :: script)
        = ((List.replicate (script.length + 1) (failedDiscovery t)).flatten, .looping) := by
      rw [run_zero_step t a script ha, hb, ih1]
      simp [List.replicate_succ]
    refine ⟨hrun, ?_, ?_, ?_, ?_⟩
    · rw [run_zero_step t a script ha, hb]
      intro e he pod
      simp only [Bool.false_eq_true, if_false, List.mem_append] at he
      rcases he with he | he
      · simp [failedDiscovery] at he
        rcases he with rfl | rfl | rfl <;> simp
      · exact ih2 e he pod
    · rw [run_zero_step t a script ha, hb]
      simp only [Bool.false_eq_true, if_false, List.filter_append, List.length_append, ih3]
      simp [failedDiscovery, List.filter]
      omega
    · rw [run_zero_step t a script ha, hb]
      intro secs hs
      simp only [Bool.false_eq_true, if_false, List.mem_append] at hs
      rcases hs with hs | hs
      · simp [failedDiscovery] at hs
        exact hs
      · exact ih5 secs hs
    · intro last rest hl hlb
      rw [List.cons_append, run_zero_step t a _ ha, hb, ih4 last rest hl hlb]
      simp [List.replicate_succ]

/-- Claim C9, the instance of the claim: scenario D, three empty pod lists and a
cancellation during the backoff that follows. -/
theorem run_zero_candidates_witness :
    Run exampleTailer [emptyAttempt, emptyAttempt, emptyAttempt]
      = ((List.replicate 3 (failedDiscovery exampleTailer)).flatten, .looping) ∧
    Run exampleTailer ([emptyAttempt, emptyAttempt, emptyAttempt] ++ cancelledInBackoff :: [])
      = ((List.replicate 3 (failedDiscovery exampleTailer)).flatten ++
          [.listPods, .logError (noPodsError exampleTailer), .ctxDone], .returned) :=
  ⟨(run_zero_candidates exampleTailer 3 [emptyAttempt, emptyAttempt, emptyAttempt] rfl
      (by
        intro a ha
        simp only [List.mem_cons, List.mem_singleton, List.mem_nil_iff, or_false, or_self] at ha
        subst ha
        exact ⟨⟨rfl, rfl, rfl⟩, rfl⟩)).1,
    (run_zero_candidates exampleTailer 3 [emptyAttempt, emptyAttempt, emptyAttempt] rfl
      (by
        intro a ha
        simp only [List.mem_cons, List.mem_singleton, List.mem_nil_iff, or_false, or_self] at ha
        subst ha
        exact ⟨⟨rfl, rfl, rfl⟩, rfl⟩)).2.2.2.2 cancelledInBackoff [] ⟨rfl, rfl, rfl⟩ rfl⟩

/-! ## The collector -/


theorem recordMap_filter_same {F : Type} (g : Instrument) (m : GoMap F) :
    (recordMap g m).filter (fun x => decide (x.instrument = g)) = recordMap g m := by
  apply List.filter_eq_self.mpr
  intro x hx
  simp only [recordMap, List.mem_map] at hx
  obtain ⟨e, _, rfl⟩ := hx
  simp [recordEntry]

theorem recordMap_filter_other {F : Type} (g h : Instrument) (m : GoMap F) (hne : g ≠ h) :
    (recordMap g m).filter (fun x => decide (x.instrument = h)) = [] := by
  apply List.filter_eq_nil_iff.mpr
  intro x hx
  simp only [recordMap, List.mem_map] at hx
  obtain ⟨e, _, rfl⟩ := hx
  simpa [recordEntry] using hne

theorem record_filter_map {F : Type} (s : FactorioStats F) (f : MapField) :
    (record s).filter (fun x => decide (x.instrument = f.instrument))
      = recordMap f.instrument (s.getMap f) := by
  cases f <;>
    simp [record, List.filter_append, MapField.instrument, FactorioStats.getMap,
      recordMap_filter_same, recordMap_filter_other, List.filter]

theorem record_filter_scalar {F : Type} (s : FactorioStats F) (i : Instrument)
    (v : GaugeValue F) (h : scalarValue s i = some v) :
    (record s).filter (fun x => decide (x.instrument = i))
      = [{ instrument := i, value := v, attrs := [] }] := by
  cases i <;> simp [scalarValue] at h <;> subst h <;>
    simp [record, List.filter_append, recordMap_filter_other, List.filter]

theorem entries_key {F : Type} (g : Instrument) (es : List (String × F))
    (hm : (es.map Prod.fst).Nodup) (k : String) (v : F) (hk : (k, v) ∈ es) :
    (es.map (recordEntry g)).filter (fun x => decide (x.attrs = [nameAttribute k]))
      = [recordEntry g (k, v)] := by
  induction es with
  | nil => simp at hk
  | cons e es ih =>
    rw [List.map_cons, List.nodup_cons] at hm
    rcases List.mem_cons.mp hk with rfl | hk
    · have hnone : (es.map (recordEntry g)).filter
          (fun x => decide (x.attrs = [nameAttribute k])) = [] := by
        apply List.filter_eq_nil_iff.mpr
        intro x hx
        simp only [List.mem_map] at hx
        obtain ⟨e, he, rfl⟩ := hx
        simp only [nameAttribute, recordEntry, decide_eq_true_eq]
        intro heq
        apply hm.1
        simp only [List.cons.injEq, KeyValue.mk.injEq, true_and, and_true] at heq
        exact List.mem_map.mpr ⟨e, he, heq⟩
      simp [List.filter, hnone, recordEntry]
    · have hne : e.1 ≠ k := by
        intro heq
        apply hm.1
        rw [heq]
        exact List.mem_map_of_mem Prod.fst hk
      rw [List.map_cons, List.filter_cons_of_neg (by simpa [recordEntry, nameAttribute] using hne)]
      exact ih hm.2 hk





theorem trimSpace_all_space (resp : String) (h : ∀ ch ∈ resp.data, isSpace ch = true) :
    TrimSpace resp = "" := by
  have h1 : resp.data.dropWhile isSpace = [] := List.dropWhile_eq_nil_iff.mpr h
  simp [TrimSpace, h1]



theorem storeMembers_error {F : Type} (fl : FloatConv F) (members : List (String × Json))
    (m : GoMap F) (err : Option JsonError)
    (h : err.isSome = true ∨ ∃ kv ∈ members, badElem kv.2 = true) :
    (storeMembers fl members m err).2.isSome = true := by
  induction members generalizing m err with
  | nil =>
    rcases h with h | ⟨kv, hkv, _⟩
    · simpa [storeMembers] using h
    · simp at hkv
  | cons kv members ih =>
    obtain ⟨k, v⟩ := kv
    rw [storeMembers]
    cases hs : storeFloat64 fl v fl.zero with
    | ok x =>
      simp only
      apply ih
      rcases h with h | ⟨kv, hkv, hbad⟩
      · exact Or.inl h
      · rcases List.mem_cons.mp hkv with rfl | hkv
        · exfalso
          cases v <;> simp [storeFloat64, badElem] at hs hbad
        · exact Or.inr ⟨kv, hkv, hbad⟩
    | error e =>
      simp only
      apply ih
      left
      cases err <;> rfl

theorem saveError_isSome {F : Type} (d : DecodeState F) (e : JsonError) :
    (d.saveError e).savedError.isSome = true := by
  unfold DecodeState.saveError
  cases h : d.savedError <;> simp [h]

theorem storeField_keeps {F : Type} (fl : FloatConv F) (f : Field) (v : Json)
    (d : DecodeState F) (h : d.savedError.isSome = true) :
    (storeField fl f v d).savedError.isSome = true := by
  cases f <;> simp only [storeField] <;> split <;>
    first
      | exact h
      | exact saveError_isSome _ _

theorem storeField_wrong {F : Type} (fl : FloatConv F) (f : Field) (v : Json)
    (d : DecodeState F) (h : wrongType f v = true) :
    (storeField fl f v d).savedError.isSome = true := by
  cases f with
  | map mf =>
    simp only [storeField]
    cases v with
    | obj members =>
      have := storeMembers_error fl members (some (d.stats.getMap mf).entries) none
        (Or.inr (by simpa [wrongType] using h))
      simp only [storeMap]
      split
      · rename_i m heq
        rw [heq] at this
        simp at this
      · exact saveError_isSome _ _
    | null => simp [wrongType] at h
    | _ => simp only [storeMap]; exact saveError_isSome _ _
  | _ =>
    cases v <;> simp [wrongType] at h <;>
      simp [storeField, storeInt64, storeFloat64, storeStringPtr, h, saveError_isSome]

theorem foldl_keeps {F : Type} (fl : FloatConv F) (members : List (String × Json))
    (d : DecodeState F) (h : d.savedError.isSome = true) :
    (members.foldl (storeMember fl) d).savedError.isSome = true := by
  induction members generalizing d with
  | nil => exact h
  | cons kv members ih =>
    rw [List.foldl_cons]
    apply ih
    unfold storeMember
    split
    · exact h
    · exact storeField_keeps fl _ _ d h

theorem foldl_wrong {F : Type} (fl : FloatConv F) (members : List (String × Json))
    (d : DecodeState F)
    (h : ∃ kv ∈ members, ∃ f, findField kv.1 = some f ∧ wrongType f kv.2 = true) :
    (members.foldl (storeMember fl) d).savedError.isSome = true := by
  induction members generalizing d with
  | nil => obtain ⟨kv, hkv, _⟩ := h; simp at hkv
  | cons kv0 members ih =>
    rw [List.foldl_cons]
    obtain ⟨kv, hkv, f, hf, hw⟩ := h
    rcases List.mem_cons.mp hkv with rfl | hkv
    · apply foldl_keeps
      simp only [storeMember, hf]
      exact storeField_wrong fl f _ d hw
    · exact ih _ ⟨kv, hkv, f, hf, hw⟩




theorem getMap_setMap {F : Type} (s : FactorioStats F) (f g : MapField) (m : GoMap F) :
    (s.setMap f m).getMap g = if g = f then m else s.getMap g := by
  cases f <;> cases g <;> simp [FactorioStats.setMap, FactorioStats.getMap]

theorem scalars_setMap {F : Type} (s : FactorioStats F) (f : MapField) (m : GoMap F) :
    (s.setMap f m).scalars = s.scalars := by
  cases f <;> rfl

theorem sameUpTo_saveError {F : Type} (absent : MapField → Bool) (d d2 : DecodeState F)
    (e : JsonError) (h : SameUpTo absent d d2) :
    SameUpTo absent (d.saveError e) (d2.saveError e) := by
  obtain ⟨h1, h2, h3⟩ := h
  unfold DecodeState.saveError
  rw [← h1]
  cases hd : d.savedError with
  | none => exact ⟨rfl, h2, h3⟩
  | some e0 => exact ⟨by rw [← h1, hd], h2, h3⟩

theorem sameUpTo_setMap {F : Type} (absent : MapField → Bool) (d d2 : DecodeState F)
    (f : MapField) (m : GoMap F) (hf : absent f = false) (h : SameUpTo absent d d2) :
    SameUpTo absent { d with stats := d.stats.setMap f m }
      { d2 with stats := d2.stats.setMap f m } := by
  obtain ⟨h1, h2, h3⟩ := h
  refine ⟨h1, by simp only [scalars_setMap]; exact h2, ?_⟩
  intro g
  simp only [getMap_setMap]
  by_cases hg : g = f
  · subst hg
    simp [hf]
  · simp only [if_neg hg]
    exact h3 g

theorem sameUpTo_storeField {F : Type} (fl : FloatConv F) (absent : MapField → Bool)
    (d d2 : DecodeState F) (f : Field) (v : Json)
    (hf : ∀ mf, f = .map mf → absent mf = false) (h : SameUpTo absent d d2) :
    SameUpTo absent (storeField fl f v d) (storeField fl f v d2) := by
  have hs := h.2.1
  simp only [FactorioStats.scalars, Prod.mk.injEq] at hs
  obtain ⟨s1, s2, s3, s4, s5, s6⟩ := hs
  cases f with
  | map mf =>
    have hmf := hf mf rfl
    have hm : d.stats.getMap mf = d2.stats.getMap mf := (h.2.2 mf).2 hmf
    simp only [storeField, hm]
    split
    · exact sameUpTo_setMap absent d d2 mf _ hmf h
    · exact sameUpTo_saveError absent _ _ _ (sameUpTo_setMap absent d d2 mf _ hmf h)
  | Tick =>
    simp only [storeField, s1]
    split
    · exact ⟨h.1, by simp [FactorioStats.scalars, s2, s3, s4, s5, s6], h.2.2⟩
    · exact sameUpTo_saveError absent _ _ _ h
  | Players =>
    simp only [storeField, s2]
    split
    · exact ⟨h.1, by simp [FactorioStats.scalars, s1, s3, s4, s5, s6], h.2.2⟩
    · exact sameUpTo_saveError absent _ _ _ h
  | RocketsLaunched =>
    simp only [storeField, s4]
    split
    · exact ⟨h.1, by simp [FactorioStats.scalars, s1, s2, s3, s5, s6], h.2.2⟩
    · exact sameUpTo_saveError absent _ _ _ h
  | Evolution =>
    simp only [storeField, s3]
    split
    · exact ⟨h.1, by simp [FactorioStats.scalars, s1, s2, s4, s5, s6], h.2.2⟩
    · exact sameUpTo_saveError absent _ _ _ h
  | ResearchProgress =>
    simp only [storeField, s6]
    split
    · exact ⟨h.1, by simp [FactorioStats.scalars, s1, s2, s3, s4, s5], h.2.2⟩
    · exact sameUpTo_saveError absent _ _ _ h
  | Research =>
    simp only [storeField, s5]
    split
    · exact ⟨h.1, by simp [FactorioStats.scalars, s1, s2, s3, s4, s6], h.2.2⟩
    · exact sameUpTo_saveError absent _ _ _ h

theorem sameUpTo_empty {F : Type} (fl : FloatConv F) (absent : MapField → Bool)
    (d d2 : DecodeState F) (mf : MapField) (v : Json) (hv : v.isEmptyObject = true)
    (hf : absent mf = true) (h : SameUpTo absent d d2) :
    SameUpTo absent d (storeField fl (.map mf) v d2) := by
  obtain ⟨h1, h2, h3⟩ := h
  cases v with
  | obj members =>
    cases members with
    | nil =>
      simp only [storeField, storeMap, storeMembers]
      refine ⟨h1, by simp only [scalars_setMap]; exact h2, ?_⟩
      intro g
      simp only [getMap_setMap]
      by_cases hg : g = mf
      · subst hg
        simp only [if_true, hf, true_implies, Bool.true_eq_false, false_implies, and_true]
        exact ⟨((h3 g).1 hf).1, by simpa [GoMap.entries] using ((h3 g).1 hf).2⟩
      · simp only [if_neg hg]
        exact h3 g
    | cons kv members => simp [Json.isEmptyObject] at hv
  | _ => simp [Json.isEmptyObject] at hv

theorem withoutFields_keep (absent : MapField → Bool) (kv : String × Json)
    (full : List (String × Json)) (h : keepMember absent kv = true) :
    withoutFields absent (kv :: full) = kv :: withoutFields absent full := by
  unfold withoutFields
  rw [List.filter_cons_of_pos h]

theorem withoutFields_drop (absent : MapField → Bool) (kv : String × Json)
    (full : List (String × Json)) (h : keepMember absent kv = false) :
    withoutFields absent (kv :: full) = withoutFields absent full := by
  unfold withoutFields
  rw [List.filter_cons_of_neg (by simp [h])]

theorem sameUpTo_foldl {F : Type} (fl : FloatConv F) (absent : MapField → Bool)
    (full : List (String × Json))
    (hempty : ∀ kv ∈ full, ∀ f, mapFieldOf kv.1 = some f → absent f = true →
      kv.2.isEmptyObject = true)
    (d d2 : DecodeState F) (h : SameUpTo absent d d2) :
    SameUpTo absent ((withoutFields absent full).foldl (storeMember fl) d)
      (full.foldl (storeMember fl) d2) := by
  induction full generalizing d d2 with
  | nil => exact h
  | cons kv full ih =>
    have hrest : ∀ kv ∈ full, ∀ f, mapFieldOf kv.1 = some f → absent f = true →
        kv.2.isEmptyObject = true := fun kv2 hkv2 => hempty kv2 (by simp [hkv2])
    rw [List.foldl_cons]
    cases hm : mapFieldOf kv.1 with
    | none =>
      rw [withoutFields_keep absent kv full (by simp [keepMember, hm]), List.foldl_cons]
      apply ih hrest
      unfold storeMember
      cases hff : findField kv.1 with
      | none => exact h
      | some f =>
        simp only
        apply sameUpTo_storeField fl absent d d2 f kv.2 _ h
        intro mf hmf
        subst hmf
        simp [mapFieldOf, hff] at hm
    | some mf =>
      have hff : findField kv.1 = some (.map mf) := by
        unfold mapFieldOf at hm
        split at hm
        · rename_i f hff
          simp only [Option.some.injEq] at hm
          rw [hff, hm]
        · cases hm
      cases ha : absent mf with
      | true =>
        rw [withoutFields_drop absent kv full (by simp [keepMember, hm, ha])]
        apply ih hrest
        simp only [storeMember, hff]
        exact sameUpTo_empty fl absent d d2 mf kv.2 (hempty kv (by simp) mf hm ha) ha h
      | false =>
        rw [withoutFields_keep absent kv full (by simp [keepMember, hm, ha]), List.foldl_cons]
        apply ih hrest
        simp only [storeMember, hff]
        exact sameUpTo_storeField fl absent d d2 (.map mf) kv.2
          (fun mf2 h2 => by cases h2; exact ha) h

theorem record_congr {F : Type} (s s2 : FactorioStats F) (hs : s.scalars = s2.scalars)
    (hm : ∀ f, (s.getMap f).entries = (s2.getMap f).entries) : record s = record s2 := by
  simp only [FactorioStats.scalars, Prod.mk.injEq] at hs
  obtain ⟨s1, s2', s3, s4, s5, s6⟩ := hs
  have h1 := hm .ItemProduction
  have h2 := hm .ItemConsumption
  have h3 := hm .FluidProduction
  have h4 := hm .FluidConsumption
  have h5 := hm .PowerProduction
  have h6 := hm .PowerConsumption
  have h7 := hm .KillCounts
  have h8 := hm .EntityBuilt
  simp only [FactorioStats.getMap] at h1 h2 h3 h4 h5 h6 h7 h8
  simp only [record, recordMap, s1, s2', s3, s4, s6, h1, h2, h3, h4, h5, h6, h7, h8]



theorem measurements_recorded {F : Type} (pre : List (CollectEffect F))
    (ms : List (Measurement F)) (post : List (CollectEffect F))
    (hpre : measurements pre = []) (hpost : measurements post = []) :
    measurements (pre ++ ms.map CollectEffect.record ++ post) = ms := by
  unfold measurements at *
  rw [List.filterMap_append, List.filterMap_append, hpre, hpost, List.filterMap_map]
  have hsome : (CollectEffect.measurement ∘ CollectEffect.record)
      = (some : Measurement F → Option (Measurement F)) := rfl
  rw [hsome, List.filterMap_some]
  simp

theorem collect_ok {F : Type} (fl : FloatConv F) (c : Collector) (resp : String)
    (s : FactorioStats F) (hne : TrimSpace resp ≠ "")
    (hs : unmarshal fl (TrimSpace resp) = .ok s) :
    measurements (collect fl c { dial := none, execute := .ok resp }) = record s := by
  have hc : collect fl c { dial := none, execute := .ok resp }
      = [.dial c.addr c.password, .execute ("/sc " ++ c.lua), .unmarshal (TrimSpace resp)]
        ++ (record s).map CollectEffect.record ++ [.close] := by
    simp [collect, handleResponse, hne, hs]
  rw [hc]
  exact measurements_recorded _ _ _ rfl rfl

theorem trimmed_ne_of_parse (data : String) (v : Json) (h : parseJson data = some v) :
    data ≠ "" := by
  intro h0
  rw [h0] at h
  have : parseJson "" = none := rfl
  rw [this] at h
  cases h



theorem unmarshal_malformed {F : Type} (fl : FloatConv F) (data : String)
    (h : malformed data = true) : ∃ err, unmarshal fl data = .error err := by
  unfold malformed at h
  unfold unmarshal
  cases hp : parseJson data with
  | none => exact ⟨_, rfl⟩
  | some v =>
    rw [hp] at h
    cases v with
    | null => cases h
    | obj members =>
      simp only [List.any_eq_true] at h
      obtain ⟨kv, hkv, hw⟩ := h
      have hex : ∃ kv ∈ members, ∃ f, findField kv.1 = some f ∧ wrongType f kv.2 = true := by
        refine ⟨kv, hkv, ?_⟩
        unfold wrongMember at hw
        cases hf : findField kv.1 with
        | none => rw [hf] at hw; cases hw
        | some f => rw [hf] at hw; exact ⟨f, rfl, hw⟩
      have := foldl_wrong fl members { stats := FactorioStats.zero fl, savedError := none } hex
      simp only [decodeStats]
      cases hs : (members.foldl (storeMember fl)
          { stats := FactorioStats.zero fl, savedError := none }).savedError with
      | none => rw [hs] at this; cases this
      | some e => exact ⟨e, rfl⟩
    | _ => exact ⟨_, rfl⟩

theorem mapField_instrument_injective (f g : MapField) (h : f.instrument = g.instrument) :
    f = g := by
  cases f <;> cases g <;> first | rfl | cases h

/-- Claim C3: for a snapshot `s` (a Go map having one entry per key), `record`
emits on each of the five scalar instruments exactly one measurement, with the
scalar as value and no attribute; on the instrument of each mapping field
exactly the measurements of the entries of the mapping, one per entry, with
the value of the entry and the single attribute `name` = key; nothing else;
no attribute has a key other than `name`; the number of measurements is 5 plus
the sizes of the eight mappings; and a key in two mappings gives two
measurements on two instruments. -/
theorem record_spec {F : Type} (s : FactorioStats F) (hs : s.WellFormed) :
    (∀ i v, scalarValue s i = some v →
      (record s).filter (fun x => decide (x.instrument = i))
        = [{ instrument := i, value := v, attrs := [] }]) ∧
    (∀ f : MapField,
      (record s).filter (fun x => decide (x.instrument = f.instrument))
        = (s.getMap f).entries.map fun e =>
            { instrument := f.instrument, value := .float e.2,
              attrs := [{ key := "name", value := e.1 }] }) ∧
    (∀ (f : MapField) (k : String) (v : F), (k, v) ∈ (s.getMap f).entries →
      (record s).filter
          (fun x => decide (x.instrument = f.instrument) &&
            decide (x.attrs = [{ key := "name", value := k }]))
        = [{ instrument := f.instrument, value := .float v,
             attrs := [{ key := "name", value := k }] }]) ∧
    (∀ x ∈ record s,
      (∃ v, scalarValue s x.instrument = some v ∧ x.value = v ∧ x.attrs = []) ∨
      (∃ (f : MapField) (k : String) (v : F), (k, v) ∈ (s.getMap f).entries ∧
        x = { instrument := f.instrument, value := .float v,
              attrs := [{ key := "name", value := k }] })) ∧
    (∀ x ∈ record s, ∀ kv ∈ x.attrs, kv.key = "name") ∧
    (record s).length = 5 + (MapField.all.map fun f => (s.getMap f).entries.length).sum ∧
    (∀ (f g : MapField) (k : String) (v w : F), f ≠ g →
      (k, v) ∈ (s.getMap f).entries → (k, w) ∈ (s.getMap g).entries →
      ({ instrument := f.instrument, value := .float v,
         attrs := [{ key := "name", value := k }] } : Measurement F) ∈ record s ∧
      ({ instrument := g.instrument, value := .float w,
         attrs := [{ key := "name", value := k }] } : Measurement F) ∈ record s ∧
      f.instrument ≠ g.instrument) := by
  have hmem : ∀ (f : MapField) (k : String) (v : F), (k, v) ∈ (s.getMap f).entries →
      ({ instrument := f.instrument, value := .float v,
         attrs := [{ key := "name", value := k }] } : Measurement F) ∈ record s := by
    intro f k v hk
    have h1 : recordEntry f.instrument (k, v) ∈ recordMap f.instrument (s.getMap f) :=
      List.mem_map_of_mem _ hk
    rw [← record_filter_map] at h1
    exact (List.mem_filter.mp h1).1
  have helse : ∀ x ∈ record s,
      (∃ v, scalarValue s x.instrument = some v ∧ x.value = v ∧ x.attrs = []) ∨
      (∃ (f : MapField) (k : String) (v : F), (k, v) ∈ (s.getMap f).entries ∧
        x = { instrument := f.instrument, value := .float v,
              attrs := [{ key := "name", value := k }] }) := by
    intro x hx
    simp only [record, List.mem_append, List.mem_cons, recordMap, List.mem_map] at hx
    rcases hx with (((((((hx | hx) | hx) | hx) | hx) | hx) | hx) | hx) | hx
    · simp only [List.mem_nil_iff, or_false] at hx
      rcases hx with rfl | rfl | rfl | rfl | rfl <;> exact Or.inl ⟨_, rfl, rfl, rfl⟩
    · obtain ⟨e, he, rfl⟩ := hx
      exact Or.inr ⟨.ItemProduction, e.1, e.2, he, rfl⟩
    · obtain ⟨e, he, rfl⟩ := hx
      exact Or.inr ⟨.ItemConsumption, e.1, e.2, he, rfl⟩
    · obtain ⟨e, he, rfl⟩ := hx
      exact Or.inr ⟨.FluidProduction, e.1, e.2, he, rfl⟩
    · obtain ⟨e, he, rfl⟩ := hx
      exact Or.inr ⟨.FluidConsumption, e.1, e.2, he, rfl⟩
    · obtain ⟨e, he, rfl⟩ := hx
      exact Or.inr ⟨.PowerProduction, e.1, e.2, he, rfl⟩
    · obtain ⟨e, he, rfl⟩ := hx
      exact Or.inr ⟨.PowerConsumption, e.1, e.2, he, rfl⟩
    · obtain ⟨e, he, rfl⟩ := hx
      exact Or.inr ⟨.KillCounts, e.1, e.2, he, rfl⟩
    · obtain ⟨e, he, rfl⟩ := hx
      exact Or.inr ⟨.EntityBuilt, e.1, e.2, he, rfl⟩
  refine ⟨record_filter_scalar s, record_filter_map s, ?_, helse, ?_, ?_, ?_⟩
  · intro f k v hk
    have hc : (fun x : Measurement F =>
        decide (x.instrument = f.instrument) &&
          decide (x.attrs = [{ key := "name", value := k }]))
        = fun x => decide (x.attrs = [nameAttribute k]) &&
            decide (x.instrument = f.instrument) := by
      funext x; exact Bool.and_comm _ _
    rw [hc, ← List.filter_filter, record_filter_map]
    exact entries_key _ _ (hs f) k v hk
  · intro x hx kv hkv
    rcases helse x hx with ⟨v, _, _, hattrs⟩ | ⟨f, k, v, _, rfl⟩
    · rw [hattrs] at hkv; simp at hkv
    · simp only [List.mem_singleton] at hkv
      rw [hkv]
  · simp [record, recordMap, MapField.all, FactorioStats.getMap]
    omega
  · intro f g k v w hfg hv hw
    exact ⟨hmem f k v hv, hmem g k w hw, fun h => hfg (mapField_instrument_injective f g h)⟩

/-- Claim C3, the instance of the claim: scenario A.  The response decodes to the
snapshot `scenarioA`, and what is recorded is the five scalar measurements and
one `item_production` measurement with `name` = `iron-plate`. -/
theorem record_spec_witness :
    measurements (collect literalFloat exampleCollector
        { dial := none, execute := .ok scenarioAResponse }) = record scenarioA ∧
    record scenarioA
      = [{ instrument := .players, value := .int 2, attrs := [] },
         { instrument := .evolution, value := .float "0.05", attrs := [] },
         { instrument := .tick, value := .int 100, attrs := [] },
         { instrument := .rocketsLaunched, value := .int 0, attrs := [] },
         { instrument := .researchProgress, value := .float "0.3", attrs := [] },
         { instrument := .itemProduction, value := .float "12.5",
           attrs := [{ key := "name", value := "iron-plate" }] }] ∧
    (record scenarioA).length
      = 5 + (MapField.all.map fun f => (scenarioA.getMap f).entries.length).sum :=
  ⟨by rfl, by rfl,
    (record_spec scenarioA (by
      intro f
      cases f <;>
        simp [GoMap.WellFormed, FactorioStats.getMap, scenarioA, GoMap.entries])).2.2.2.2.2.1⟩

/-- Claim C4: for a response that is empty or consists of white space only, the
cycle logs the empty-response line and returns: `json.Unmarshal` is not called,
no parse error is logged and nothing is recorded. -/
theorem collect_empty_response {F : Type} (fl : FloatConv F) (c : Collector) (resp : String)
    (h : ∀ ch ∈ resp.data, isSpace ch = true) :
    collect fl c { dial := none, execute := .ok resp }
      = [.dial c.addr c.password, .execute ("/sc " ++ c.lua), .logEmptyResponse, .close] ∧
    (∀ data, CollectEffect.unmarshal data ∉ collect fl c { dial := none, execute := .ok resp }) ∧
    (∀ err payload,
      CollectEffect.logParseError err payload ∉
        collect fl c { dial := none, execute := .ok resp }) ∧
    measurements (collect fl c { dial := none, execute := .ok resp }) = [] := by
  have hc : collect fl c { dial := none, execute := .ok resp }
      = [.dial c.addr c.password, .execute ("/sc " ++ c.lua), .logEmptyResponse, .close] := by
    simp [collect, handleResponse, trimSpace_all_space resp h]
  rw [hc]
  simp [measurements, CollectEffect.measurement]

/-- Claim C4, an instance: a response of blanks, a newline and a tab. -/
theorem collect_empty_response_witness :
    collect literalFloat exampleCollector { dial := none, execute := .ok " \n\t " }
      = [.dial "localhost:27015" "", .execute "/sc rcon.print(stats())", .logEmptyResponse,
          .close] :=
  (collect_empty_response literalFloat exampleCollector " \n\t " (by decide)).1

/-- Claim C5 as stated fails: the response `null` is not empty and is a valid JSON
value that is not an object, and the cycle is no parse error: `json.Unmarshal`
stores nothing and returns no error, and the five scalars are recorded with
their zero values.  The same holds for an object in which an integer field is
given as `null`. -/
theorem collect_null_is_recorded :
    TrimSpace "null" ≠ "" ∧
    (parseJson (TrimSpace "null")).map Json.isObject = some false ∧
    collect literalFloat exampleCollector { dial := none, execute := .ok "null" }
      = [.dial "localhost:27015" "", .execute "/sc rcon.print(stats())", .unmarshal "null",
         .record { instrument := .players, value := .int 0, attrs := [] },
         .record { instrument := .evolution, value := .float "0", attrs := [] },
         .record { instrument := .tick, value := .int 0, attrs := [] },
         .record { instrument := .rocketsLaunched, value := .int 0, attrs := [] },
         .record { instrument := .researchProgress, value := .float "0", attrs := [] },
         .close] ∧
    measurements (collect literalFloat exampleCollector
        { dial := none, execute := .ok nullFieldResponse })
      = [{ instrument := .players, value := .int 2, attrs := [] },
         { instrument := .evolution, value := .float "0", attrs := [] },
         { instrument := .tick, value := .int 0, attrs := [] },
         { instrument := .rocketsLaunched, value := .int 0, attrs := [] },
         { instrument := .researchProgress, value := .float "0", attrs := [] }] := by
  refine ⟨by decide, by rfl, by rfl, by rfl⟩

/-- Claim C5, amended: for a response whose trimmed text is not empty and is
not valid JSON, or is a JSON boolean, number, string or array, or is a JSON
object with a member that is stored into a field and whose value is not `null`
and has the wrong type for the field, the cycle is a parse error: nothing is
recorded, and the payload logged with the error is the first 200 characters
of the trimmed response. -/
theorem collect_parse_error {F : Type} (fl : FloatConv F) (c : Collector) (resp : String)
    (hne : TrimSpace resp ≠ "") (hmal : malformed (TrimSpace resp) = true) :
    (∃ err, collect fl c { dial := none, execute := .ok resp }
      = [.dial c.addr c.password, .execute ("/sc " ++ c.lua), .unmarshal (TrimSpace resp),
          .logParseError err (truncate 200 (TrimSpace resp)), .close]) ∧
    (truncate 200 (TrimSpace resp)).data = (TrimSpace resp).data.take 200 ∧
    (truncate 200 (TrimSpace resp)).length ≤ 200 ∧
    measurements (collect fl c { dial := none, execute := .ok resp }) = [] := by
  obtain ⟨err, herr⟩ := unmarshal_malformed fl _ hmal
  have hc : collect fl c { dial := none, execute := .ok resp }
      = [.dial c.addr c.password, .execute ("/sc " ++ c.lua), .unmarshal (TrimSpace resp),
          .logParseError err (truncate 200 (TrimSpace resp)), .close] := by
    simp [collect, handleResponse, hne, herr]
  refine ⟨⟨err, hc⟩, rfl, ?_, by rw [hc]; simp [measurements, CollectEffect.measurement]⟩
  show (List.take 200 (TrimSpace resp).data).length ≤ 200
  rw [List.length_take]
  exact Nat.min_le_left _ _

/-- Claim C5, amended, an instance: a string where `tick` wants an integer. -/
theorem collect_parse_error_witness :
    measurements (collect literalFloat exampleCollector
      { dial := none, execute := .ok wrongTypeResponse }) = [] :=
  (collect_parse_error literalFloat exampleCollector wrongTypeResponse (by decide)
    (by rfl)).2.2.2

/-- Claim C6: take a response whose value is a JSON object, and a set of mapping
fields into which none of its members is stored.  If the response in which
these fields are given as empty objects decodes, then the response decodes
too, each of the absent fields is the nil map and nothing is recorded on its
instrument, and what is recorded is the same for the two responses. -/
theorem absent_maps_as_empty {F : Type} (fl : FloatConv F) (c : Collector)
    (absent : MapField → Bool) (full : List (String × Json)) (resp given : String)
    (s2 : FactorioStats F)
    (hgiven : parseJson (TrimSpace given) = some (.obj full))
    (hresp : parseJson (TrimSpace resp) = some (.obj (withoutFields absent full)))
    (hempty : ∀ kv ∈ full, ∀ f, mapFieldOf kv.1 = some f → absent f = true →
      kv.2.isEmptyObject = true)
    (hvalid : unmarshal fl (TrimSpace given) = .ok s2) :
    ∃ s, unmarshal fl (TrimSpace resp) = .ok s ∧
      (∀ f, absent f = true → s.getMap f = none ∧
        (record s).filter (fun x => decide (x.instrument = f.instrument)) = []) ∧
      record s = record s2 ∧
      measurements (collect fl c { dial := none, execute := .ok resp }) = record s ∧
      measurements (collect fl c { dial := none, execute := .ok given }) = record s2 := by
  have hrel := sameUpTo_foldl fl absent full hempty
    { stats := FactorioStats.zero fl, savedError := none }
    { stats := FactorioStats.zero fl, savedError := none }
    ⟨rfl, rfl, fun f => ⟨fun _ => by cases f <;> exact ⟨rfl, rfl⟩, fun _ => rfl⟩⟩
  obtain ⟨h1, h2, h3⟩ := hrel
  simp only [unmarshal, hgiven, decodeStats] at hvalid
  cases he2 : (full.foldl (storeMember fl)
      { stats := FactorioStats.zero fl, savedError := none }).savedError with
  | some e => rw [he2] at hvalid; cases hvalid
  | none =>
    rw [he2] at hvalid h1
    simp only [Except.ok.injEq] at hvalid
    have hs : unmarshal fl (TrimSpace resp)
        = .ok ((withoutFields absent full).foldl (storeMember fl)
          { stats := FactorioStats.zero fl, savedError := none }).stats := by
      simp only [unmarshal, hresp, decodeStats, h1]
    refine ⟨_, hs, ?_, ?_, collect_ok fl c resp _ (trimmed_ne_of_parse _ _ hresp) hs, ?_⟩
    · intro f hf
      have hnil := ((h3 f).1 hf).1
      refine ⟨hnil, ?_⟩
      rw [record_filter_map, hnil]
      rfl
    · rw [← hvalid]
      apply record_congr _ _ h2
      intro f
      cases hf : absent f with
      | true => rw [((h3 f).1 hf).1, ((h3 f).1 hf).2]; rfl
      | false => rw [(h3 f).2 hf]
    · apply collect_ok fl c given _ (trimmed_ne_of_parse _ _ hgiven)
      simp only [unmarshal, hgiven, decodeStats, he2, hvalid]

/-- Claim C6, an instance: `item_production` and `kill_counts` are absent from
the response. -/
theorem absent_maps_as_empty_witness :
    ∃ s, unmarshal literalFloat (TrimSpace sparseResponse) = .ok s ∧
      (∀ f, absentFields f = true → s.getMap f = none ∧
        (record s).filter (fun x => decide (x.instrument = f.instrument)) = []) ∧
      record s = record filledStats ∧
      measurements (collect literalFloat exampleCollector
        { dial := none, execute := .ok sparseResponse }) = record s ∧
      measurements (collect literalFloat exampleCollector
        { dial := none, execute := .ok filledResponse }) = record filledStats :=
  absent_maps_as_empty literalFloat exampleCollector absentFields filledMembers
    sparseResponse filledResponse filledStats rfl rfl
    (by
      intro kv hkv f hf ha
      simp only [filledMembers, List.mem_cons, List.mem_singleton, List.mem_nil_iff,
        or_false] at hkv
      rcases hkv with rfl | rfl | rfl | rfl
      · cases hf
      · rfl
      · cases hf
      · rfl)
    rfl

end FactorioMetrics
